import Mathlib

/-!
Shallow embedding of the deterministic core of the R52 agent loop:
the structured-edit engine (src/agent/edits.py), the response validation
gate (src/agent/response_filters.py) and the retry decision policy
(src/agent/retry_policy.py).  Text is modelled as `List Char` (Python
strings are sequences of code points), JSON values as an inductive
`JVal`, edit operations as the JSON dictionaries the source dispatches
on, and the workspace as a finite map from relative path strings to file
contents.  Python functions that raise `ValueError` are modelled with
`Except` over structured error codes; each error constructor corresponds
to one `raise` site of the source.

Modelling notes (fidelity caveats, each marked at its definition):
* Python `re` and `str` methods are Unicode aware; the character classes
  below are exact for ASCII input and treat non-ASCII code points as
  word characters.  All concrete inputs used in theorems are ASCII.
* The host file system is modelled as a finite map of regular files; a
  path is a directory exactly when some file lives strictly below it
  (empty directories are not modelled, and OS level I/O errors other
  than the directory conflicts checked by the source have no analogue).
-/

namespace AgentLoop

/-- ASCII part of the whitespace set used by Python `str.strip` and by
the `\s` class of the `re` module. -/
def pyIsSpace (c : Char) : Bool :=
  c = ' ' || c = '\t' || c = '\n' || c = '\r' || c = '\x0b' || c = '\x0c'

/-- Python `str.strip()` on a list of code points. -/
def pyStripList (l : List Char) : List Char :=
  ((l.dropWhile pyIsSpace).reverse.dropWhile pyIsSpace).reverse

/-- Python `str.strip()`. -/
def pyStrip (s : String) : String :=
  (pyStripList s.toList).asString

/-- Python regex `\w` (word character).  Exact on ASCII; non-ASCII code
points are approximated as word characters (Python treats non-ASCII
letters and digits as `\w`). -/
def pyIsWord (c : Char) : Bool :=
  c.isAlphanum || c = '_' || decide (0x80 ≤ c.toNat)

/-- Code point comparison of strings, the order Python `sorted` uses. -/
def charListLe : List Char → List Char → Bool
  | [], _ => true
  | _ :: _, [] => false
  | a :: as_, b :: bs =>
    if a.toNat < b.toNat then true
    else if b.toNat < a.toNat then false
    else charListLe as_ bs

/-- `p <= q` in the code point order Python `sorted` uses. -/
def strLe (p q : String) : Bool :=
  charListLe p.toList q.toList

/-- `str.find` of Python restricted to a single scan: the least index at
which `ned` occurs in `hay`, if any. -/
def strFind (ned : List Char) : List Char → Option Nat
  | [] => if ned.isPrefixOf [] then some 0 else none
  | c :: t =>
    if ned.isPrefixOf (c :: t) then some 0
    else (strFind ned t).map (· + 1)

/-- The `while True` scan of `_find_occurrence` (edits.py:299-306):
repeatedly `haystack.find(needle, start)` with `start = pos + 1`, so
overlapping occurrences are all collected.  The fuel argument only
bounds the iteration count; `hay.length + 1` rounds suffice because
every round advances `start` by at least one. -/
def findPosAux (ned : List Char) : Nat → List Char → Nat → List Nat
  | 0, _, _ => []
  | fuel + 1, hay, offset =>
    match strFind ned hay with
    | none => []
    | some p => (offset + p) :: findPosAux ned fuel (hay.drop (p + 1)) (offset + p + 1)

/-- All start positions of `ned` in `hay`, in increasing order, as the
scan loop of `_find_occurrence` produces them. -/
def findPositions (hay ned : List Char) : List Nat :=
  findPosAux ned (hay.length + 1) hay 0

/-- JSON values as Python `json.loads` produces them.  Numeric literals
are kept verbatim (`num`), which separates the `int` results of the
Python decoder (no `.`, `e`, `E` in the literal) from its `float`
results. -/
inductive JVal where
  | null
  | bool (b : Bool)
  | num (lit : String)
  | str (s : String)
  | arr (elems : List JVal)
  | obj (fields : List (String × JVal))
deriving Repr, Inhabited

/-- A structured edit operation: the JSON dictionary the source
dispatches on by its string valued `op` field. -/
abbrev Edit := List (String × JVal)

/-- Python `dict.get` on the field list of a decoded JSON object.  The
decoder keeps the last of duplicate keys, hence last wins. -/
def dictGet : List (String × JVal) → String → Option JVal
  | [], _ => none
  | (k, v) :: rest, key =>
    match dictGet rest key with
    | some w => some w
    | none => if k = key then some v else none

/-- Error codes of the edit engine.  Each constructor corresponds to one
`raise ValueError` site of edits.py; the `Nat` is the 1-based operation
index baked into the message (0 for failures outside the operation
loop, exactly as the source passes `idx=0` there). -/
inductive EditError where
  | fieldNotString (idx : Nat) (field : String)
  | emptyField (idx : Nat) (field : String)
  | invalidOccurrence (idx : Nat)
  | absolutePath (idx : Nat) (field : String) (raw : String)
  | pathEscape (idx : Nat) (field : String) (raw : String)
  | targetIsDirectory (idx : Nat) (rel : String)
  | snippetNotFound (idx : Nat) (field : String)
  | ambiguousSnippet (idx : Nat) (field : String) (n : Nat)
  | occurrenceOutOfRange (idx : Nat) (field : String) (occ : Nat) (n : Nat)
  | targetFileNotFound (idx : Nat) (rel : String)
  | alreadyExists (idx : Nat) (rel : String)
  | deleteNotFound (idx : Nat) (rel : String)
  | moveSourceNotFound (idx : Nat) (rel : String)
  | moveDestExists (idx : Nat) (rel : String)
  | moveSameSourceDest (idx : Nat) (rel : String)
  | unsupportedOp (idx : Nat) (op : String)
  | unsupportedOpNonString (idx : Nat)
  | missingPath (idx : Nat)
  | missingOpKey (idx : Nat)
  | writeParentConflict (rel : String)
  | writeDirConflict (rel : String)
deriving Repr, DecidableEq

/-- The 1-based operation index an error message carries (`Edit #i:`),
0 for errors raised outside the per-operation loop. -/
def EditError.opIndex : EditError → Nat
  | .fieldNotString i _ => i
  | .emptyField i _ => i
  | .invalidOccurrence i => i
  | .absolutePath i _ _ => i
  | .pathEscape i _ _ => i
  | .targetIsDirectory i _ => i
  | .snippetNotFound i _ => i
  | .ambiguousSnippet i _ _ => i
  | .occurrenceOutOfRange i _ _ _ => i
  | .targetFileNotFound i _ => i
  | .alreadyExists i _ => i
  | .deleteNotFound i _ => i
  | .moveSourceNotFound i _ => i
  | .moveDestExists i _ => i
  | .moveSameSourceDest i _ => i
  | .unsupportedOp i _ => i
  | .unsupportedOpNonString i => i
  | .missingPath i => i
  | .missingOpKey i => i
  | .writeParentConflict _ => 0
  | .writeDirConflict _ => 0

/-- `_required_string` (edits.py:239-243). -/
def requiredString (e : Edit) (key : String) (idx : Nat) : Except EditError String :=
  match dictGet e key with
  | some (.str s) => .ok s
  | _ => .error (.fieldNotString idx key)

/-- Decode a JSON numeric literal as the Python decoder would decode an
`int`: an optional minus sign followed by decimal digits, no `.`, `e`
or `E` (those make a `float`, which `isinstance(value, int)` rejects). -/
def jsonIntOfLit (lit : String) : Option Int :=
  match lit.toList with
  | '-' :: ds =>
    if ds ≠ [] ∧ ds.all Char.isDigit then
      some (-(Int.ofNat (ds.foldl (fun n c => 10 * n + (c.toNat - '0'.toNat)) 0)))
    else none
  | ds =>
    if ds ≠ [] ∧ ds.all Char.isDigit then
      some (Int.ofNat (ds.foldl (fun n c => 10 * n + (c.toNat - '0'.toNat)) 0))
    else none

/-- `_occurrence` (edits.py:253-259).  `edit.get` yields Python `None`
both for an absent key and for JSON `null`; Python `bool` is an `int`
subtype, so JSON `true` passes the `isinstance(value, int)` check as 1
and JSON `false` fails the positivity check. -/
def occurrenceField (e : Edit) (idx : Nat) : Except EditError (Option Nat) :=
  match dictGet e "occurrence" with
  | none => .ok none
  | some .null => .ok none
  | some (.bool true) => .ok (some 1)
  | some (.bool false) => .error (.invalidOccurrence idx)
  | some (.num lit) =>
    match jsonIntOfLit lit with
    | some v => if v ≤ 0 then .error (.invalidOccurrence idx) else .ok (some v.toNat)
    | none => .error (.invalidOccurrence idx)
  | some _ => .error (.invalidOccurrence idx)

/-- `_find_occurrence` (edits.py:295-323). -/
def findOccurrence (hay ned : List Char) (occurrence : Option Nat) (idx : Nat)
    (field : String) : Except EditError Nat :=
  if ned.isEmpty then .error (.emptyField idx field)
  else
    let positions := findPositions hay ned
    if positions.isEmpty then .error (.snippetNotFound idx field)
    else
      match occurrence with
      | none =>
        if positions.length > 1 then .error (.ambiguousSnippet idx field positions.length)
        else .ok (positions.headD 0)
      | some k =>
        if positions.length < k then
          .error (.occurrenceOutOfRange idx field k positions.length)
        else .ok (positions.getD (k - 1) 0)

/-- `_replace_once` (edits.py:361-363). -/
def replaceOnce (hay old new : List Char) (occurrence : Option Nat) (idx : Nat) :
    Except EditError (List Char) :=
  (findOccurrence hay old occurrence idx "old").map fun pos =>
    hay.take pos ++ new ++ hay.drop (pos + old.length)

/-- `_insert_relative` (edits.py:366-378). -/
def insertRelative (hay anchor text : List Char) (before : Bool)
    (occurrence : Option Nat) (idx : Nat) : Except EditError (List Char) :=
  (findOccurrence hay anchor occurrence idx "anchor").map fun pos =>
    if before then hay.take pos ++ text ++ hay.drop pos
    else hay.take (pos + anchor.length) ++ text ++ hay.drop (pos + anchor.length)

/-- `_apply_text_edit` (edits.py:326-358).  The `edit["op"]` subscript
of the source raises `KeyError` when the key is absent
(`missingOpKey`); a non-string `op` never equals any of the dispatch
strings and falls through to the unsupported-operation failure. -/
def applyTextEdit (text : List Char) (e : Edit) (idx : Nat) : Except EditError (List Char) :=
  match dictGet e "op" with
  | none => .error (.missingOpKey idx)
  | some (.str op) =>
    if op = "replace_snippet" then do
      let old ← requiredString e "old" idx
      let new ← requiredString e "new" idx
      let occurrence ← occurrenceField e idx
      replaceOnce text old.toList new.toList occurrence idx
    else if op = "delete_snippet" then do
      let old ← requiredString e "old" idx
      let occurrence ← occurrenceField e idx
      replaceOnce text old.toList [] occurrence idx
    else if op = "insert_before" then do
      let anchor ← requiredString e "anchor" idx
      let insertText ← requiredString e "text" idx
      let occurrence ← occurrenceField e idx
      insertRelative text anchor.toList insertText.toList true occurrence idx
    else if op = "insert_after" then do
      let anchor ← requiredString e "anchor" idx
      let insertText ← requiredString e "text" idx
      let occurrence ← occurrenceField e idx
      insertRelative text anchor.toList insertText.toList false occurrence idx
    else if op = "append_text" then do
      let appendText ← requiredString e "text" idx
      .ok (text ++ appendText.toList)
    else if op = "prepend_text" then do
      let prependText ← requiredString e "text" idx
      .ok (prependText.toList ++ text)
    else if op = "replace_entire_file" then do
      let content ← requiredString e "content" idx
      .ok content.toList
    else .error (.unsupportedOp idx op)
  | some _ => .error (.unsupportedOpNonString idx)

/-- Loop body of `apply_edit_instructions` (edits.py:70-72). -/
def applyEditsGo : List Char → List Edit → Nat → Except EditError (List Char)
  | text, [], _ => .ok text
  | text, e :: rest, idx =>
    match applyTextEdit text e idx with
    | .error err => .error err
    | .ok updated => applyEditsGo updated rest (idx + 1)

/-- `apply_edit_instructions` (edits.py:57-74): fold the operations in
list order over the progressively updated text. -/
def applyEditInstructions (originalText : List Char) (edits : List Edit) :
    Except EditError (List Char) :=
  applyEditsGo originalText edits 1

/-- JSON whitespace (`json.decoder` skips exactly space, tab, newline,
carriage return). -/
def isJsonWs (c : Char) : Bool :=
  c = ' ' || c = '\t' || c = '\n' || c = '\r'

/-- Skip JSON whitespace. -/
def skipJsonWs (l : List Char) : List Char :=
  l.dropWhile isJsonWs

/-- Hexadecimal digit value. -/
def hexVal (c : Char) : Option Nat :=
  if '0' ≤ c ∧ c ≤ '9' then some (c.toNat - '0'.toNat)
  else if 'a' ≤ c ∧ c ≤ 'f' then some (c.toNat - 'a'.toNat + 10)
  else if 'A' ≤ c ∧ c ≤ 'F' then some (c.toNat - 'A'.toNat + 10)
  else none

/-- Value of a `\uXXXX` escape. -/
def hex4 (a b c d : Char) : Option Nat := do
  let va ← hexVal a
  let vb ← hexVal b
  let vc ← hexVal c
  let vd ← hexVal d
  some (4096 * va + 256 * vb + 16 * vc + vd)

/-- Body of a JSON string literal, after the opening quote, in the
strict mode of `json.loads`: raw control characters below 0x20 are
rejected, only the eight standard escapes and `\uXXXX` are accepted,
and surrogate pairs are combined.  A lone surrogate (which Python keeps
as an unpaired code unit, unrepresentable in `Char`) is approximated by
U+FFFD; no theorem below exercises that case. -/
def parseJStringAux : Nat → List Char → Option (List Char × List Char)
  | 0, _ => none
  | _ + 1, [] => none
  | _ + 1, '"' :: rest => some ([], rest)
  | fuel + 1, '\\' :: 'u' :: a :: b :: c :: d :: rest =>
    (match hex4 a b c d with
     | none => none
     | some n =>
       if 0xD800 ≤ n ∧ n ≤ 0xDBFF then
         match rest with
         | '\\' :: 'u' :: a2 :: b2 :: c2 :: d2 :: rest2 =>
           (match hex4 a2 b2 c2 d2 with
            | some m =>
              if 0xDC00 ≤ m ∧ m ≤ 0xDFFF then
                (parseJStringAux fuel rest2).map fun (s, r) =>
                  (Char.ofNat (0x10000 + (n - 0xD800) * 0x400 + (m - 0xDC00)) :: s, r)
              else (parseJStringAux fuel rest).map fun (s, r) => (Char.ofNat 0xFFFD :: s, r)
            | none => (parseJStringAux fuel rest).map fun (s, r) => (Char.ofNat 0xFFFD :: s, r))
         | _ => (parseJStringAux fuel rest).map fun (s, r) => (Char.ofNat 0xFFFD :: s, r)
       else if 0xDC00 ≤ n ∧ n ≤ 0xDFFF then
         (parseJStringAux fuel rest).map fun (s, r) => (Char.ofNat 0xFFFD :: s, r)
       else
         (parseJStringAux fuel rest).map fun (s, r) => (Char.ofNat n :: s, r))
  | fuel + 1, '\\' :: e :: rest =>
    let esc : Option Char :=
      if e = '"' then some '"'
      else if e = '\\' then some '\\'
      else if e = '/' then some '/'
      else if e = 'b' then some '\x08'
      else if e = 'f' then some '\x0c'
      else if e = 'n' then some '\n'
      else if e = 'r' then some '\r'
      else if e = 't' then some '\t'
      else none
    (match esc with
     | none => none
     | some ch => (parseJStringAux fuel rest).map fun (s, r) => (ch :: s, r))
  | _ + 1, '\\' :: [] => none
  | fuel + 1, c :: rest =>
    if c.toNat < 0x20 then none
    else (parseJStringAux fuel rest).map fun (s, r) => (c :: s, r)

/-- String literal body with sufficient fuel (every recursion step of
`parseJStringAux` consumes at least one character). -/
def parseJString (l : List Char) : Option (List Char × List Char) :=
  parseJStringAux (l.length + 1) l

/-- One or more decimal digits. -/
def takeDigits1 : List Char → Option (List Char × List Char)
  | c :: rest =>
    if c.isDigit then some (c :: rest.takeWhile Char.isDigit, rest.dropWhile Char.isDigit)
    else none
  | [] => none

/-- JSON number literal, the regex of the Python decoder:
`(-?(?:0|[1-9]\d*))(\.\d+)?([eE][-+]?\d+)?`.  Returns the matched
literal verbatim. -/
def parseJNumber (l : List Char) : Option (List Char × List Char) := do
  let (sign, l1) :=
    match l with
    | '-' :: rest => ([ '-' ], rest)
    | _ => (([] : List Char), l)
  let (intPart, l2) ←
    match l1 with
    | '0' :: rest => some (['0'], rest)
    | c :: rest =>
      if c.isDigit ∧ c ≠ '0' then
        some (c :: rest.takeWhile Char.isDigit, rest.dropWhile Char.isDigit)
      else none
    | [] => none
  let (fracPart, l3) ←
    match l2 with
    | '.' :: rest =>
      match takeDigits1 rest with
      | some (ds, r) => some ('.' :: ds, r)
      | none => some (([] : List Char), l2)
    | _ => some (([] : List Char), l2)
  let (expPart, l4) ←
    match l3 with
    | e :: rest =>
      if e = 'e' ∨ e = 'E' then
        match rest with
        | s :: rest2 =>
          if s = '+' ∨ s = '-' then
            match takeDigits1 rest2 with
            | some (ds, r) => some (e :: s :: ds, r)
            | none => some (([] : List Char), l3)
          else
            match takeDigits1 rest with
            | some (ds, r) => some (e :: ds, r)
            | none => some (([] : List Char), l3)
        | [] => some (([] : List Char), l3)
      else some (([] : List Char), l3)
    | [] => some (([] : List Char), l3)
  some (sign ++ intPart ++ fracPart ++ expPart, l4)

mutual

/-- One JSON value, mirroring the dispatch of the Python scanner:
string, object, array, the three keyword constants, then the number
regex, then the non-standard `NaN` / `Infinity` / `-Infinity` constants
that `json.loads` accepts by default.  The fuel only bounds recursion
depth; `jsonLoads` supplies more than enough. -/
def parseJValue : Nat → List Char → Option (JVal × List Char)
  | 0, _ => none
  | fuel + 1, l =>
    match l with
    | '"' :: rest => (parseJString rest).map fun (s, r) => (JVal.str s.asString, r)
    | '{' :: rest =>
      let r1 := skipJsonWs rest
      (match r1 with
       | '}' :: r2 => some (JVal.obj [], r2)
       | _ => (parseJMembers fuel r1).map fun (ms, r) => (JVal.obj ms, r))
    | '[' :: rest =>
      let r1 := skipJsonWs rest
      (match r1 with
       | ']' :: r2 => some (JVal.arr [], r2)
       | _ => (parseJElems fuel r1).map fun (es, r) => (JVal.arr es, r))
    | 'n' :: 'u' :: 'l' :: 'l' :: rest => some (JVal.null, rest)
    | 't' :: 'r' :: 'u' :: 'e' :: rest => some (JVal.bool true, rest)
    | 'f' :: 'a' :: 'l' :: 's' :: 'e' :: rest => some (JVal.bool false, rest)
    | 'N' :: 'a' :: 'N' :: rest => some (JVal.num "NaN", rest)
    | 'I' :: 'n' :: 'f' :: 'i' :: 'n' :: 'i' :: 't' :: 'y' :: rest =>
      some (JVal.num "Infinity", rest)
    | _ =>
      match parseJNumber l with
      | some (lit, r) => some (JVal.num lit.asString, r)
      | none =>
        match l with
        | '-' :: 'I' :: 'n' :: 'f' :: 'i' :: 'n' :: 'i' :: 't' :: 'y' :: rest =>
          some (JVal.num "-Infinity", rest)
        | _ => none

/-- Members of a JSON object after `{`, positioned at a key. -/
def parseJMembers : Nat → List Char → Option (List (String × JVal) × List Char)
  | 0, _ => none
  | fuel + 1, l =>
    match l with
    | '"' :: rest =>
      match parseJString rest with
      | none => none
      | some (k, r1) =>
        match skipJsonWs r1 with
        | ':' :: r3 =>
          match parseJValue fuel (skipJsonWs r3) with
          | none => none
          | some (v, r4) =>
            match skipJsonWs r4 with
            | ',' :: r6 =>
              (parseJMembers fuel (skipJsonWs r6)).map fun (ms, r) =>
                ((k.asString, v) :: ms, r)
            | '}' :: r6 => some ([(k.asString, v)], r6)
            | _ => none
        | _ => none
    | _ => none

/-- Elements of a JSON array after `[`, positioned at a value. -/
def parseJElems : Nat → List Char → Option (List JVal × List Char)
  | 0, _ => none
  | fuel + 1, l =>
    match parseJValue fuel l with
    | none => none
    | some (v, r1) =>
      match skipJsonWs r1 with
      | ',' :: r2 => (parseJElems fuel (skipJsonWs r2)).map fun (es, r) => (v :: es, r)
      | ']' :: r2 => some ([v], r2)
      | _ => none

end

/-- `json.loads`: one JSON document with optional surrounding
whitespace and nothing else. -/
def jsonLoads (s : String) : Option JVal :=
  match parseJValue (2 * s.length + 4) (skipJsonWs s.toList) with
  | some (v, rest) => if (skipJsonWs rest).isEmpty then some v else none
  | none => none

/-- The scan state machine of `_extract_first_json_object`
(edits.py:205-236), tracking in-string / escape state so braces inside
string literals are ignored.  `text` is the full input (for slicing),
the second argument the remaining characters at index `i`. -/
def extractAux (text : List Char) :
    List Char → Nat → Bool → Bool → Nat → Option Nat → Option (List Char)
  | [], _, _, _, _, _ => none
  | ch :: rest, i, inString, escaped, depth, startIdx =>
    if inString then
      if escaped then extractAux text rest (i + 1) true false depth startIdx
      else if ch = '\\' then extractAux text rest (i + 1) true true depth startIdx
      else if ch = '"' then extractAux text rest (i + 1) false false depth startIdx
      else extractAux text rest (i + 1) true false depth startIdx
    else if ch = '"' then extractAux text rest (i + 1) true false depth startIdx
    else if ch = '{' then
      extractAux text rest (i + 1) false false (depth + 1)
        (if depth = 0 then some i else startIdx)
    else if ch = '}' then
      if depth = 0 then extractAux text rest (i + 1) false false 0 startIdx
      else if depth = 1 then
        match startIdx with
        | some s => some ((text.take (i + 1)).drop s)
        | none => extractAux text rest (i + 1) false false 0 none
      else extractAux text rest (i + 1) false false (depth - 1) startIdx
    else extractAux text rest (i + 1) false false depth startIdx

/-- `_extract_first_json_object` (edits.py:205-236). -/
def extractFirstJsonObject (text : List Char) : Option (List Char) :=
  extractAux text text 0 false false 0 none

/-- Failure codes of `parse_edit_instructions`; every constructor is a
`MalformedResponse` in the taxonomy of the spec, one per `raise` site
(edits.py:33, 38, 41, 45, 49, 52). -/
inductive ParseErr where
  | notJson
  | invalidJson
  | notObject
  | editsBad
  | editNotObject (idx : Nat)
  | editOpBad (idx : Nat)
deriving Repr, DecidableEq

/-- The per-element validation loop of `parse_edit_instructions`
(edits.py:47-52). -/
def validateEdits : List JVal → Nat → Option ParseErr
  | [], _ => none
  | e :: rest, idx =>
    match e with
    | .obj fields =>
      match dictGet fields "op" with
      | some (.str op) =>
        if op.isEmpty then some (.editOpBad idx) else validateEdits rest (idx + 1)
      | _ => some (.editOpBad idx)
    | _ => some (.editNotObject idx)

/-- The payload acquisition phase of `parse_edit_instructions`
(edits.py:25-38): direct `json.loads` on the stripped text, else
balanced-object extraction and a second `json.loads`; the boolean
records whether wrapper text had to be stripped. -/
def decodedPayload (responseText : String) : Except ParseErr (JVal × Bool) :=
  let stripped := pyStrip responseText
  match jsonLoads stripped with
  | some v => .ok (v, false)
  | none =>
    match extractFirstJsonObject stripped.toList with
    | none => .error .notJson
    | some blobL =>
      let blob := blobL.asString
      match jsonLoads blob with
      | some v => .ok (v, blob ≠ stripped)
      | none => .error .invalidJson

/-- `parse_edit_instructions` (edits.py:17-54). -/
def parseEditInstructions (responseText : String) : Except ParseErr (List JVal × Bool) :=
  match decodedPayload responseText with
  | .error e => .error e
  | .ok (payload, sanitized) =>
    match payload with
    | .obj fields =>
      match dictGet fields "edits" with
      | some (.arr es) =>
        if es.isEmpty then .error .editsBad
        else
          match validateEdits es 1 with
          | some err => .error err
          | none => .ok (es, sanitized)
      | _ => .error .editsBad
    | _ => .error .notObject

/-- `str.split` of Python with a single-character separator, on code
point lists (structural, hence kernel reducible). -/
def splitOnChar (sep : Char) : List Char → List Char → List (List Char)
  | [], acc => [acc.reverse]
  | c :: rest, acc =>
    if c = sep then acc.reverse :: splitOnChar sep rest []
    else splitOnChar sep rest (c :: acc)

/-- `"/".join` on code point lists. -/
def joinSlash : List (List Char) → List Char
  | [] => []
  | [c] => c
  | c :: rest => c ++ '/' :: joinSlash rest

/-- `posixpath.normpath`: collapse repeated separators, drop `.`
components, resolve `..` against a preceding component, keep leading
`..` components of a relative path, honour the POSIX double-slash
special case. -/
def normPath (path : String) : String :=
  if path = "" then "."
  else
    let chars := path.toList
    let initialSlashes : Nat :=
      if "/".toList.isPrefixOf chars then
        if "//".toList.isPrefixOf chars ∧ ¬ "///".toList.isPrefixOf chars then 2 else 1
      else 0
    let comps := splitOnChar '/' chars []
    let newComps := comps.foldl
      (fun acc comp =>
        if comp = [] ∨ comp = ['.'] then acc
        else if comp ≠ ['.', '.'] ∨ (initialSlashes = 0 ∧ acc = [])
            ∨ (acc ≠ [] ∧ acc.getLast? = some ['.', '.']) then
          acc ++ [comp]
        else if acc ≠ [] then acc.dropLast
        else acc)
      ([] : List (List Char))
    let joined := joinSlash newComps
    let out :=
      (if initialSlashes = 2 then ['/', '/']
       else if initialSlashes = 1 then ['/'] else []) ++ joined
    if out = [] then "." else out.asString

/-- `_normalize_relative_path` (edits.py:262-272): strip, reject empty,
normalize, reject absolute paths and paths escaping the workspace. -/
def normalizeRelativePath (path : String) (idx : Nat) (field : String) :
    Except EditError String :=
  let raw := pyStrip path
  if raw = "" then .error (.emptyField idx field)
  else
    let normalized := normPath raw
    if "/".toList.isPrefixOf normalized.toList then .error (.absolutePath idx field raw)
    else if normalized = "." ∨ normalized = ".." ∨ "../".toList.isPrefixOf normalized.toList then
      .error (.pathEscape idx field raw)
    else .ok normalized

/-- `_absolute_workspace_path` (edits.py:275-279).  In the model the
workspace root is the root of the path space, so the
`os.path.commonpath` containment check reduces to: the argument, once
normalized, must not be absolute and must not climb out through leading
`..` components.  For the already-normalized relative paths this is
called with, the check always passes, exactly as in the source. -/
def absoluteWorkspacePath (rel : String) (idx : Nat) (field : String) :
    Except EditError String :=
  let n := normPath rel
  if "/".toList.isPrefixOf rel.toList ∨ n = ".." ∨ "../".toList.isPrefixOf n.toList then
    .error (.pathEscape idx field rel)
  else .ok rel

/-- The workspace tree: a finite map from relative path strings to file
contents.  A path is a directory exactly when some file lives strictly
below it. -/
abbrev Fs := List (String × String)

/-- Content of the file at `p`, if `p` is a regular file. -/
def fsLookup : Fs → String → Option String
  | [], _ => none
  | (k, v) :: rest, p => if k = p then some v else fsLookup rest p

/-- Write (create or overwrite) the file at `p`. -/
def fsSet : Fs → String → String → Fs
  | [], p, v => [(p, v)]
  | (k, w) :: rest, p, v => if k = p then (k, v) :: rest else (k, w) :: fsSet rest p v

/-- Delete the file at `p` (no-op when absent, like the guarded
`os.remove` of the source). -/
def fsRemove : Fs → String → Fs
  | [], _ => []
  | (k, w) :: rest, p => if k = p then fsRemove rest p else (k, w) :: fsRemove rest p

/-- `os.path.isdir` for a workspace-relative path in the model: some
file lives strictly below `p`. -/
def isDirIn (fs : Fs) (p : String) : Bool :=
  fs.any fun e => (p ++ "/").toList.isPrefixOf e.1.toList

/-- `os.makedirs(parent, exist_ok=True)` fails with `FileExistsError`
exactly when some strict ancestor of `p` exists as a regular file. -/
def hasAncestorFile (fs : Fs) (p : String) : Bool :=
  fs.any fun e => (e.1 ++ "/").toList.isPrefixOf p.toList

/-- The per-transaction file state cache (`file_cache`): relative path
to either content (`some`) or the MISSING sentinel (`none`). -/
abbrev Cache := List (String × Option String)

/-- Cache lookup. -/
def cacheGet : Cache → String → Option (Option String)
  | [], _ => none
  | (k, v) :: rest, p => if k = p then some v else cacheGet rest p

/-- Cache update. -/
def cacheSet : Cache → String → Option String → Cache
  | [], p, v => [(p, v)]
  | (k, w) :: rest, p, v => if k = p then (k, v) :: rest else (k, w) :: cacheSet rest p v

/-- `load_file` (edits.py:111-125): consult the cache first; on a miss
check the path, reject directories, and read content or record the
MISSING sentinel. -/
def loadFile (fs : Fs) (cache : Cache) (rel : String) (idx : Nat) :
    Except EditError (Cache × Option String) :=
  match cacheGet cache rel with
  | some v => .ok (cache, v)
  | none =>
    match absoluteWorkspacePath rel idx "path" with
    | .error e => .error e
    | .ok _ =>
      if isDirIn fs rel then .error (.targetIsDirectory idx rel)
      else
        let v := fsLookup fs rel
        .ok (cacheSet cache rel v, v)

/-- `_required_path` (edits.py:246-250). -/
def requiredPathField (e : Edit) (key : String) (idx : Nat) : Except EditError String :=
  match dictGet e key with
  | some (.str s) => normalizeRelativePath s idx key
  | _ => .error (.fieldNotString idx key)

/-- `_resolve_target_path` (edits.py:282-292).  `edit.get("path")`
yields Python `None` both for an absent key and for JSON `null`, and
only then the caller-supplied default applies. -/
def resolveTargetPath (e : Edit) (idx : Nat) (defaultRel : Option String) :
    Except EditError String :=
  match dictGet e "path" with
  | none =>
    (match defaultRel with
     | none => .error (.missingPath idx)
     | some d => .ok d)
  | some .null =>
    (match defaultRel with
     | none => .error (.missingPath idx)
     | some d => .ok d)
  | some (.str s) => normalizeRelativePath s idx "path"
  | some _ => .error (.fieldNotString idx "path")

/-- Membership of `op` in `TEXT_EDIT_OPS` (edits.py:5-13). -/
def isTextEditOp (op : String) : Bool :=
  op = "replace_snippet" || op = "delete_snippet" || op = "insert_before" ||
  op = "insert_after" || op = "append_text" || op = "prepend_text" ||
  op = "replace_entire_file"

/-- Add to the dirty set (`dirty_paths.add`). -/
def dirtyAdd (dirty : List String) (p : String) : List String :=
  if p ∈ dirty then dirty else dirty ++ [p]

/-- The in-memory validation-and-apply loop of
`apply_workspace_edit_instructions` (edits.py:127-177).  No disk state
is touched here: the fold only reads `fs` and threads the cache and the
dirty set. -/
def processEdits (fs : Fs) (defaultRel : Option String) :
    List Edit → Nat → Cache → List String → Except EditError (Cache × List String)
  | [], _, cache, dirty => .ok (cache, dirty)
  | e :: rest, idx, cache, dirty =>
    match dictGet e "op" with
    | none => .error (.missingOpKey idx)
    | some (.str op) =>
      if isTextEditOp op then
        match resolveTargetPath e idx defaultRel with
        | .error err => .error err
        | .ok target =>
          match loadFile fs cache target idx with
          | .error err => .error err
          | .ok (_, none) => .error (.targetFileNotFound idx target)
          | .ok (cache1, some content) =>
            match applyTextEdit content.toList e idx with
            | .error err => .error err
            | .ok updated =>
              processEdits fs defaultRel rest (idx + 1)
                (cacheSet cache1 target (some updated.asString)) (dirtyAdd dirty target)
      else if op = "create_file" then
        match requiredPathField e "path" idx with
        | .error err => .error err
        | .ok target =>
          match loadFile fs cache target idx with
          | .error err => .error err
          | .ok (_, some _) => .error (.alreadyExists idx target)
          | .ok (cache1, none) =>
            match requiredString e "content" idx with
            | .error err => .error err
            | .ok content =>
              processEdits fs defaultRel rest (idx + 1)
                (cacheSet cache1 target (some content)) (dirtyAdd dirty target)
      else if op = "delete_file" then
        match requiredPathField e "path" idx with
        | .error err => .error err
        | .ok target =>
          match loadFile fs cache target idx with
          | .error err => .error err
          | .ok (_, none) => .error (.deleteNotFound idx target)
          | .ok (cache1, some _) =>
            processEdits fs defaultRel rest (idx + 1)
              (cacheSet cache1 target none) (dirtyAdd dirty target)
      else if op = "move_file" then
        match resolveTargetPath e idx defaultRel with
        | .error err => .error err
        | .ok src =>
          match requiredPathField e "new_path" idx with
          | .error err => .error err
          | .ok dst =>
            if src = dst then .error (.moveSameSourceDest idx src)
            else
              match loadFile fs cache src idx with
              | .error err => .error err
              | .ok (_, none) => .error (.moveSourceNotFound idx src)
              | .ok (cache1, some sv) =>
                match loadFile fs cache1 dst idx with
                | .error err => .error err
                | .ok (_, some _) => .error (.moveDestExists idx dst)
                | .ok (cache2, none) =>
                  processEdits fs defaultRel rest (idx + 1)
                    (cacheSet (cacheSet cache2 dst (some sv)) src none)
                    (dirtyAdd (dirtyAdd dirty src) dst)
      else .error (.unsupportedOp idx op)
    | some _ => .error (.unsupportedOpNonString idx)

/-- Insertion into a sorted list under the Python code point order. -/
def sortedInsert (p : String) : List String → List String
  | [] => [p]
  | q :: rest => if strLe p q then p :: q :: rest else q :: sortedInsert p rest

/-- `sorted` of Python on a list of strings. -/
def sortStrings : List String → List String
  | [] => []
  | p :: rest => sortedInsert p (sortStrings rest)

/-- The flush loop of `apply_workspace_edit_instructions`
(edits.py:179-200): for each dirty path in sorted order, delete the
file when the cache holds MISSING, otherwise create parent directories
(which fails when an ancestor exists as a file) and write, refusing a
target that is a directory.  The fold returns the tree as mutated so
far together with the first failure, so partial flushes are
observable. -/
def writePhase (cache : Cache) : Fs → List String → Fs × Option EditError
  | fs, [] => (fs, none)
  | fs, p :: rest =>
    match absoluteWorkspacePath p 0 "path" with
    | .error e => (fs, some e)
    | .ok _ =>
      match (cacheGet cache p).getD none with
      | none => writePhase cache (fsRemove fs p) rest
      | some v =>
        if hasAncestorFile fs p then (fs, some (.writeParentConflict p))
        else if isDirIn fs p then (fs, some (.writeDirConflict p))
        else writePhase cache (fsSet fs p v) rest

/-- `apply_workspace_edit_instructions` (edits.py:77-202), part 1: the
normalization of `default_path` (edits.py:102-106). -/
def normalizedDefault (defaultPath : Option String) : Except EditError (Option String) :=
  match defaultPath with
  | none => .ok none
  | some d => (normalizeRelativePath d 0 "default_path").map some

/-- `apply_workspace_edit_instructions` (edits.py:77-202).  Returns the
resulting tree together with either the sorted changed-path list or the
first error; on a validation-phase error the input tree is returned
untouched.  The `os.path.isdir(workspace_dir)` existence check has no
analogue because an `Fs` value always denotes an existing root. -/
def applyWorkspaceEditInstructions (fs : Fs) (edits : List Edit)
    (defaultPath : Option String) : Fs × Except EditError (List String) :=
  match normalizedDefault defaultPath with
  | .error e => (fs, .error e)
  | .ok defaultRel =>
    match processEdits fs defaultRel edits 1 [] [] with
    | .error e => (fs, .error e)
    | .ok (cache, dirty) =>
      let sorted := sortStrings dirty
      match writePhase cache fs sorted with
      | (fs2, some e) => (fs2, .error e)
      | (fs2, none) => (fs2, .ok sorted)

/-- Python `str.splitlines` restricted to the `\n`, `\r\n` and `\r`
line breaks (the exotic Unicode breaks it also honours do not occur in
any input considered here). -/
def pySplitlinesAux : List Char → List Char → List (List Char)
  | [], acc => if acc.isEmpty then [] else [acc.reverse]
  | '\r' :: '\n' :: rest, acc => acc.reverse :: pySplitlinesAux rest []
  | '\n' :: rest, acc => acc.reverse :: pySplitlinesAux rest []
  | '\r' :: rest, acc => acc.reverse :: pySplitlinesAux rest []
  | c :: rest, acc => pySplitlinesAux rest (c :: acc)

/-- `str.splitlines`. -/
def pySplitlines (l : List Char) : List (List Char)  :=
  pySplitlinesAux l []

/-- `line.rstrip("\r")`. -/
def rstripCR (l : List Char) : List Char :=
  (l.reverse.dropWhile (· = '\r')).reverse

/-- `directive_re = ^\s*\.[A-Za-z_][\w.]*\b` under `re.match`.  Because
the run class `[\w.]` contains every word character, the trailing
`[\w.]*\b` can always be satisfied by backtracking once the mandatory
`[A-Za-z_]` (a word character) has matched, so the regex reduces to:
optional whitespace, a dot, then an ASCII letter or underscore. -/
def directiveMatch (l : List Char) : Bool :=
  match l.dropWhile pyIsSpace with
  | '.' :: c :: _ => c.isAlpha || c = '_'
  | _ => false

/-- First-character class `[A-Za-z_.$]` of the label regexes. -/
def labelFirstClass (c : Char) : Bool :=
  c.isAlpha || c = '_' || c = '.' || c = '$'

/-- Continuation class `[\w.$]` of the label regexes. -/
def labelRestClass (c : Char) : Bool :=
  pyIsWord c || c = '.' || c = '$'

/-- The shared `^\s*(?:[A-Za-z_.$][\w.$]*|\d+):` head of
`label_only_re` and `label_prefix_re`: on success, the characters after
the colon.  Both alternatives are maximal-munch safe because neither
character class contains `:`. -/
def labelRemainder (l : List Char) : Option (List Char) :=
  match l.dropWhile pyIsSpace with
  | [] => none
  | c :: rest =>
    if labelFirstClass c then
      match rest.dropWhile labelRestClass with
      | ':' :: r => some r
      | _ => none
    else if c.isDigit then
      match rest.dropWhile Char.isDigit with
      | ':' :: r => some r
      | _ => none
    else none

/-- `label_only_re = ^\s*(?:[A-Za-z_.$][\w.$]*|\d+):\s*(?:[@;].*)?$`
under `re.match`: after the colon and optional whitespace the line must
end or continue with an `@` or `;` comment. -/
def labelOnlyMatch (l : List Char) : Bool :=
  match labelRemainder l with
  | none => false
  | some r =>
    match r.dropWhile pyIsSpace with
    | [] => true
    | '@' :: _ => true
    | ';' :: _ => true
    | _ => false

/-- `preproc_re`: `^\s*#(include|define|if|ifdef|ifndef|elif|else|endif|
pragma|error|warning)\b`.  With the trailing `\b`, a keyword alternative
matches exactly when the maximal word-character run after `#` equals
that keyword. -/
def preprocMatch (l : List Char) : Bool :=
  match l.dropWhile pyIsSpace with
  | '#' :: rest =>
    let run := (rest.takeWhile pyIsWord).asString
    run = "include" || run = "define" || run = "if" || run = "ifdef" ||
    run = "ifndef" || run = "elif" || run = "else" || run = "endif" ||
    run = "pragma" || run = "error" || run = "warning"
  | _ => false

/-- Continuation class `[A-Za-z0-9_.]` of `instr_re`. -/
def instrClass (c : Char) : Bool :=
  c.isAlphanum || c = '_' || c = '.'

/-- `instr_re = ^\s*[A-Za-z][A-Za-z0-9_.]*\b(?:\s+.*)?$` under
`re.match`.  The `\b` split point must fall at the end of the maximal
`[A-Za-z0-9_.]` run (class characters are never whitespace, and the
tail demands whitespace or end of line there), the character before it
must be a word character (so not `.`), and what follows must be empty
or start with whitespace. -/
def instrMatch (l : List Char) : Bool :=
  match l.dropWhile pyIsSpace with
  | [] => false
  | c :: rest =>
    if c.isAlpha then
      (match ((c :: rest).takeWhile instrClass).getLast? with
       | some lc => lc ≠ '.'
       | none => false) &&
      (match (c :: rest).dropWhile instrClass with
       | [] => true
       | d :: _ => pyIsSpace d)
    else false

/-- How the per-line scan of `validate_arm_asm_source_text`
(response_filters.py:157-199) disposes of one line, in check order. -/
inductive LineClass where
  | blank
  | prose
  | backtick
  | comment
  | asmLike
  | labelBadTail
  | proseToken
  | unrecognized
deriving Repr, DecidableEq

/-- The `reject_prefixes` tuple (response_filters.py:142-154), checked
against the stripped line. -/
def rejectPrefixHit (stripped : List Char) : Bool :=
  "ClearcutLogger:".toList.isPrefixOf stripped ||
  "Info:".toList.isPrefixOf stripped ||
  "Warning:".toList.isPrefixOf stripped ||
  "Error:".toList.isPrefixOf stripped ||
  "I will ".toList.isPrefixOf stripped ||
  "I\x27ll ".toList.isPrefixOf stripped ||
  "Let me ".toList.isPrefixOf stripped ||
  "Here is ".toList.isPrefixOf stripped ||
  "```".toList.isPrefixOf stripped ||
  "# ".toList.isPrefixOf stripped ||
  "##".toList.isPrefixOf stripped

/-- Comment starters `("@", ";", "//", "/*", "*", "*/")` checked with
`startswith` against a stripped line (the `*` entry subsumes `*/`). -/
def commentStart (stripped : List Char) : Bool :=
  match stripped with
  | '@' :: _ => true
  | ';' :: _ => true
  | '/' :: '/' :: _ => true
  | '/' :: '*' :: _ => true
  | '*' :: _ => true
  | _ => false

/-- The prose-signature token set (response_filters.py:194). -/
def proseTokenHit (stripped : List Char) : Bool :=
  let token := ((stripped.takeWhile (fun c => ¬ pyIsSpace c)).map Char.toLower).asString
  token = "i" || token = "here" || token = "please" || token = "note" ||
  token = "first" || token = "then"

/-- One iteration of the validation loop
(response_filters.py:157-199): classify `raw` (one line of
`splitlines`) exactly in the order the source checks it. -/
def classifyLine (raw : List Char) : LineClass :=
  let line := rstripCR raw
  let stripped := pyStripList line
  if stripped.isEmpty then .blank
  else if rejectPrefixHit stripped then .prose
  else if stripped.contains (Char.ofNat 0x60) then .backtick
  else if commentStart stripped then .comment
  else if preprocMatch line || directiveMatch line || labelOnlyMatch line then .asmLike
  else
    match labelRemainder line with
    | some r =>
      let tail := pyStripList r
      if tail.isEmpty then .asmLike
      else if commentStart tail then .asmLike
      else if preprocMatch tail || directiveMatch tail || instrMatch tail then .asmLike
      else .labelBadTail
    | none =>
      if instrMatch line then
        if proseTokenHit stripped then .proseToken else .asmLike
      else .unrecognized

/-- Failure values of `validate_arm_asm_source_text`: the first
offending line (number, class, reported text) or the final
no-assembly-found report. -/
inductive ValidationErr where
  | badLine (lineno : Nat) (cls : LineClass) (text : String)
  | noAsm
deriving Repr, DecidableEq

/-- The text the error message embeds: the stripped line, except for
the bad-label-tail report which embeds the stripped tail. -/
def offendingText (raw : List Char) : String :=
  let line := rstripCR raw
  let stripped := pyStripList line
  match labelRemainder line with
  | some r => if classifyLine raw = .labelBadTail then (pyStripList r).asString
              else stripped.asString
  | none => stripped.asString

/-- Whether a line class aborts the scan (returns an error). -/
def LineClass.isOffending : LineClass → Bool
  | .prose => true
  | .backtick => true
  | .labelBadTail => true
  | .proseToken => true
  | .unrecognized => true
  | _ => false

/-- Whether a line class sets `saw_asm_like`. -/
def LineClass.countsAsAsm : LineClass → Bool
  | .asmLike => true
  | _ => false

/-- The scan loop of `validate_arm_asm_source_text`. -/
def validateLines : List (List Char) → Nat → Bool → Option ValidationErr
  | [], _, sawAsm => if sawAsm then none else some .noAsm
  | raw :: rest, lineno, sawAsm =>
    let cls := classifyLine raw
    if cls.isOffending then some (.badLine lineno cls (offendingText raw))
    else validateLines rest (lineno + 1) (sawAsm || cls.countsAsAsm)

/-- `validate_arm_asm_source_text` (response_filters.py:131-203). -/
def validateArmAsmSourceText (sourceText : String) : Option ValidationErr :=
  validateLines (pySplitlines sourceText.toList) 1 false

/-- `ResponseMode` (retry_policy.py:19). -/
inductive ResponseMode where
  | fullSource
  | edits
deriving Repr, DecidableEq

/-- `RetryOutcome` (retry_policy.py:20-28). -/
inductive RetryOutcome where
  | editApplyFailed
  | sourceValidationFailed
  | compileFailed
  | verificationFailed
  | runTimedOut
  | runOutputMismatch
  | runFailed
deriving Repr, DecidableEq

/-- `RetryDecision` (retry_policy.py:31-35). -/
structure RetryDecision where
  nextPrompt : String
  nextMode : ResponseMode
  note : Option String := none
deriving Repr, DecidableEq

/-- The `ValueError`s of `decide_next_retry`: a required context field
is missing for the outcome (`MissingContext` in the taxonomy of the
spec); the unsupported-outcome raise is unreachable over the closed
outcome type. -/
inductive RetryError where
  | missingContext (message : String)
deriving Repr, DecidableEq

/-- `build_edit_retry_prompt` (prompting.py:78-115). -/
def buildEditRetryPrompt (currentSource issueText : String) : String :=
  issueText ++ "\n\n" ++
  "Apply the smallest possible fix to the current `agent_code.s`.\n" ++
  "Return ONLY JSON with this shape (no prose, no markdown):\n" ++
  "\x7b\n" ++
  "  \"edits\": [\n" ++
  "    \x7b\n" ++
  "      \"op\": \"replace_snippet\",\n" ++
  "      \"path\": \"relative/path/to/file\",\n" ++
  "      \"new_path\": \"relative/path/to/new_file\",\n" ++
  "      \"old\": \"...\",\n" ++
  "      \"new\": \"...\",\n" ++
  "      \"anchor\": \"...\",\n" ++
  "      \"text\": \"...\",\n" ++
  "      \"content\": \"...\",\n" ++
  "      \"occurrence\": 1\n" ++
  "    \x7d\n" ++
  "  ]\n" ++
  "\x7d\n" ++
  "JSON EDIT RULES (critical):\n" ++
  "- Allowed op values: replace_snippet, delete_snippet, insert_before, insert_after, append_text, prepend_text, replace_entire_file, create_file, delete_file, move_file.\n" ++
  "- `path` must be a relative path under the active writable folder. Never use absolute paths and never use `..` segments.\n" ++
  "- For text edit ops, omit `path` only when editing `agent_code.s`; include `path` for any other file.\n" ++
  "- `create_file` requires `path` + `content`. `delete_file` requires `path`. `move_file` requires `path` + `new_path`.\n" ++
  "- Only include fields required by the chosen op.\n" ++
  "- `replace_snippet` and `delete_snippet` must use exact snippets from the CURRENT file.\n" ++
  "- If a snippet may appear multiple times, set `occurrence` (1-based).\n" ++
  "- Do not include explanations, markdown fences, or any non-JSON text.\n" ++
  "- Prefer a small number of focused edits over replacing the entire file.\n\n" ++
  "Current `agent_code.s`:\n" ++
  "```assembly\n" ++
  currentSource ++ "\n" ++
  "```\n"

/-- `build_edit_apply_issue_prompt` (prompting.py:118-130). -/
def buildEditApplyIssuePrompt (error lastAttemptFeedback : String) : String :=
  let feedback :=
    if lastAttemptFeedback ≠ "" then
      "\nMost recent compile/runtime feedback from the previous attempt " ++
      "(use this to fix the edit content, not just formatting):\n" ++
      lastAttemptFeedback ++ "\n\n"
    else "\n"
  "Your previous response could not be applied as JSON edit instructions.\n" ++
  "Edit apply error: " ++ error ++ "\n" ++
  feedback

/-- `build_edit_apply_fallback_full_source_prompt`
(prompting.py:133-145). -/
def buildEditApplyFallbackFullSourcePrompt (currentSource editApplyIssue : String) : String :=
  editApplyIssue ++
  "Your intended fix may be directionally correct, but the edit instructions were not " ++
  "safe to apply to the current file exactly.\n\n" ++
  "For the next retry, do NOT return JSON edits.\n" ++
  "Return ONLY a full replacement for `agent_code.s` (no prose, no markdown).\n" ++
  "Make the smallest logical fix needed while preserving the working parts.\n\n" ++
  "Current `agent_code.s`:\n" ++
  "```assembly\n" ++
  currentSource ++ "\n" ++
  "```\n"

/-- `build_source_validation_issue_prompt` (prompting.py:148-153). -/
def buildSourceValidationIssuePrompt (sourceValidationError : String) : String :=
  "Your previous response contained non-assembly text and was rejected before writing `agent_code.s`.\n" ++
  "Validation error: " ++ sourceValidationError ++ "\n\n" ++
  "Return ONLY valid ARM assembly source for `agent_code.s` (no prose, no markdown, no logs).\n"

/-- `build_compile_failure_edit_issue` (prompting.py:156-161). -/
def buildCompileFailureEditIssue (compileError : String) : String :=
  "Your previous code failed to compile with the following error:\n" ++
  compileError ++ "\n\n" ++
  "Please fix the code."

/-- `build_compile_failure_full_source_prompt` (prompting.py:164-169). -/
def buildCompileFailureFullSourcePrompt (compileError : String) : String :=
  "Your previous code failed to compile with the following error:\n" ++
  compileError ++ "\n\n" ++
  "Please fix the code and return ONLY the corrected assembly/C code."

/-- `build_verification_failure_issue` (prompting.py:172-179). -/
def buildVerificationFailureIssue (stage : Option String) (output : String)
    (timedOut : Bool) : String :=
  let stageText := match stage with | some s => if s ≠ "" then s else "verification"
                                    | none => "verification"
  let timeoutText := if timedOut then "timed out" else "failed"
  "The " ++ stageText ++ " command " ++ timeoutText ++ ".\n" ++
  "Command output:\n" ++ output ++ "\n\n" ++
  "Please fix the implementation so verification passes."

/-- `build_verification_failure_full_source_prompt`
(prompting.py:182-186). -/
def buildVerificationFailureFullSourcePrompt (stage : Option String) (output : String)
    (timedOut : Bool) : String :=
  buildVerificationFailureIssue stage output timedOut ++
  "\nReturn ONLY the corrected source output (no prose, no markdown)."

/-- `build_timeout_edit_issue` (prompting.py:189-194). -/
def buildTimeoutEditIssue (boardName runOutput : String) : String :=
  "The code compiled successfully, but running it in " ++ boardName ++
  " timed out after multiple attempts.\n" ++
  "Output before timeout:\n" ++ runOutput ++ "\n\n" ++
  "Ensure you are not stuck in an infinite loop before printing the required output. Please fix the logic."

/-- `build_timeout_full_source_prompt` (prompting.py:197-203). -/
def buildTimeoutFullSourcePrompt (boardName runOutput : String) : String :=
  "The code compiled successfully, but running it in " ++ boardName ++
  " timed out after multiple attempts.\n" ++
  "Output before timeout:\n" ++ runOutput ++ "\n\n" ++
  "Ensure you are not stuck in an infinite loop before printing the required output. " ++
  "Please fix the logic and try again. Return ONLY the corrected assembly/C code."

/-- `build_output_mismatch_edit_issue` (prompting.py:206-211). -/
def buildOutputMismatchEditIssue (expectedOutput runOutput : String) : String :=
  "The code compiled successfully and completed, but the expected output was not found.\n" ++
  "Output:\n" ++ runOutput ++ "\n\n" ++
  "We expect the exact string \x27" ++ expectedOutput ++
  "\x27 to be printed to the UART. Please fix the logic."

/-- `build_output_mismatch_full_source_prompt` (prompting.py:214-220). -/
def buildOutputMismatchFullSourcePrompt (expectedOutput runOutput : String) : String :=
  "The code compiled successfully and completed, but the expected output was not found.\n" ++
  "Output:\n" ++ runOutput ++ "\n\n" ++
  "We expect the exact string \x27" ++ expectedOutput ++
  "\x27 to be printed to the UART. " ++
  "Please fix the logic and return ONLY the corrected assembly/C code."

/-- Python `token in text` substring membership. -/
def strContains (text sub : String) : Bool :=
  (strFind sub.toList text.toList).isSome

/-- The mismatch-token test of the `edit_apply_failed` branch
(retry_policy.py:60-63). -/
def editMismatchToken (err : String) : Bool :=
  strContains err "not found in current source" || strContains err "matched" ||
  strContains err "out of range"

/-- `decide_next_retry` (retry_policy.py:38-174).  Keyword arguments
become positional ones in source order; optional string arguments are
`Option String` (`None` ↔ `none`). -/
def decideNextRetry (outcome : RetryOutcome) (currentMode : ResponseMode)
    (incremental : Bool) (incrementalStrict : Bool)
    (currentSource expectedOutput boardName : String)
    (compileError verificationError verificationStage : Option String)
    (verificationTimedOut : Bool)
    (runOutput validationError editApplyError : Option String)
    (lastAttemptFeedback : String) : Except RetryError RetryDecision :=
  match outcome with
  | .editApplyFailed =>
    match editApplyError with
    | none => .error (.missingContext "edit_apply_error is required for edit_apply_failed")
    | some err =>
      if err = "" then
        .error (.missingContext "edit_apply_error is required for edit_apply_failed")
      else
        let editApplyIssue := buildEditApplyIssuePrompt err lastAttemptFeedback
        if editMismatchToken err then
          if incremental ∧ incrementalStrict then
            .ok { nextPrompt := buildEditRetryPrompt currentSource
                    (editApplyIssue ++
                     "Strict incremental mode is enabled. Stay in JSON edits mode and " ++
                     "provide corrected, unambiguous edit instructions for the current source."),
                  nextMode := .edits,
                  note := some "Strict incremental mode: keeping next retry in edits mode despite edit/source mismatch." }
          else
            .ok { nextPrompt := buildEditApplyFallbackFullSourcePrompt currentSource editApplyIssue,
                  nextMode := .fullSource,
                  note := some "Switching next retry to full source mode due to edit/source mismatch." }
        else
          .ok { nextPrompt := buildEditRetryPrompt currentSource
                  (editApplyIssue ++
                   "Return valid JSON edit instructions against the current `agent_code.s`."),
                nextMode := .edits }
  | .sourceValidationFailed =>
    match validationError with
    | none => .error (.missingContext "validation_error is required for source_validation_failed")
    | some err =>
      if err = "" then
        .error (.missingContext "validation_error is required for source_validation_failed")
      else
        let validationIssue := buildSourceValidationIssuePrompt err
        if currentMode = .edits then
          .ok { nextPrompt := buildEditRetryPrompt currentSource validationIssue,
                nextMode := .edits }
        else
          .ok { nextPrompt := validationIssue, nextMode := .fullSource }
  | .compileFailed =>
    match compileError with
    | none => .error (.missingContext "compile_error is required for compile_failed")
    | some err =>
      if err = "" then
        .error (.missingContext "compile_error is required for compile_failed")
      else if incremental then
        .ok { nextPrompt := buildEditRetryPrompt currentSource (buildCompileFailureEditIssue err),
              nextMode := .edits }
      else
        .ok { nextPrompt := buildCompileFailureFullSourcePrompt err, nextMode := .fullSource }
  | .verificationFailed =>
    match verificationError with
    | none => .error (.missingContext "verification_error is required for verification_failed")
    | some err =>
      if incremental then
        .ok { nextPrompt := buildEditRetryPrompt currentSource
                (buildVerificationFailureIssue verificationStage err verificationTimedOut),
              nextMode := .edits }
      else
        .ok { nextPrompt := buildVerificationFailureFullSourcePrompt
                verificationStage err verificationTimedOut,
              nextMode := .fullSource }
  | .runTimedOut =>
    match runOutput with
    | none => .error (.missingContext "run_output is required for run_timed_out")
    | some out =>
      if incremental then
        .ok { nextPrompt := buildEditRetryPrompt currentSource
                (buildTimeoutEditIssue boardName out),
              nextMode := .edits }
      else
        .ok { nextPrompt := buildTimeoutFullSourcePrompt boardName out,
              nextMode := .fullSource }
  | .runOutputMismatch =>
    match runOutput with
    | none => .error (.missingContext "run_output is required for run_output_mismatch/run_failed")
    | some out =>
      if incremental then
        .ok { nextPrompt := buildEditRetryPrompt currentSource
                (buildOutputMismatchEditIssue expectedOutput out),
              nextMode := .edits }
      else
        .ok { nextPrompt := buildOutputMismatchFullSourcePrompt expectedOutput out,
              nextMode := .fullSource }
  | .runFailed =>
    match runOutput with
    | none => .error (.missingContext "run_output is required for run_output_mismatch/run_failed")
    | some out =>
      if incremental then
        .ok { nextPrompt := buildEditRetryPrompt currentSource
                (buildOutputMismatchEditIssue expectedOutput out),
              nextMode := .edits }
      else
        .ok { nextPrompt := buildOutputMismatchFullSourcePrompt expectedOutput out,
              nextMode := .fullSource }

/-! ## Theorems -/

/-- Which context field, per outcome, triggers the `MissingContext`
failure of `decide_next_retry`: the falsy test (`if not x`) of the
edit-apply, validation and compile branches also fires on an empty
string, while the verification and run branches test `is None` only. -/
def requiredDetailMissing (outcome : RetryOutcome)
    (compileError verificationError runOutput validationError editApplyError :
      Option String) : Bool :=
  match outcome with
  | .editApplyFailed => editApplyError.getD "" = ""
  | .sourceValidationFailed => validationError.getD "" = ""
  | .compileFailed => compileError.getD "" = ""
  | .verificationFailed => verificationError.isNone
  | .runTimedOut => runOutput.isNone
  | .runOutputMismatch => runOutput.isNone
  | .runFailed => runOutput.isNone

/-- Whether an `Except` value is an error. -/
def isErr {e a : Type} : Except e a → Bool
  | .error _ => true
  | .ok _ => false

instance {e a : Type} [DecidableEq e] [DecidableEq a] : DecidableEq (Except e a) := fun x y =>
  match x, y with
  | .error u, .error v =>
    if h : u = v then .isTrue (by rw [h]) else .isFalse (fun hc => h (Except.error.inj hc))
  | .ok u, .ok v =>
    if h : u = v then .isTrue (by rw [h]) else .isFalse (fun hc => h (Except.ok.inj hc))
  | .error _, .ok _ => .isFalse (fun hc => Except.noConfusion hc)
  | .ok _, .error _ => .isFalse (fun hc => Except.noConfusion hc)

/-- C6 (corrected): as stated the claim fails, because for
`EditApplyFailed` the code tests `if not edit_apply_error`, which also
raises `MissingContext` on a present-but-empty string.  Concretely,
`edit_apply_error=""` is present yet the call fails. -/
theorem c6_counterexample :
    ((decideNextRetry .editApplyFailed .fullSource false false "" "" ""
        none none none false none none (some "") "") |> isErr) = true
    ∧ (some "" : Option String) ≠ none := by
  exact ⟨rfl, by simp⟩

/-- C6 (amended): `decide_next_retry` fails exactly when the detail
field its outcome requires is missing, where missing means absent or
empty for `EditApplyFailed` / `SourceValidationFailed` /
`CompileFailed` (falsy test) and absent (`is None`) for
`VerificationFailed` and the three run outcomes; otherwise it returns a
`RetryDecision`. -/
theorem c6_missing_context_iff (outcome : RetryOutcome) (currentMode : ResponseMode)
    (incremental incrementalStrict : Bool)
    (currentSource expectedOutput boardName : String)
    (compileError verificationError verificationStage : Option String)
    (verificationTimedOut : Bool)
    (runOutput validationError editApplyError : Option String)
    (lastAttemptFeedback : String) :
    (decideNextRetry outcome currentMode incremental incrementalStrict
        currentSource expectedOutput boardName compileError verificationError
        verificationStage verificationTimedOut runOutput validationError
        editApplyError lastAttemptFeedback |> isErr)
      = requiredDetailMissing outcome compileError verificationError runOutput
          validationError editApplyError := by
  cases outcome
  all_goals simp only [decideNextRetry, requiredDetailMissing]
  · cases editApplyError with
    | none => rfl
    | some err =>
      by_cases h : err = ""
      · simp [h, isErr]
      · simp only [if_neg h, Option.getD_some]
        split_ifs <;> simp [isErr, h]
  · cases validationError with
    | none => rfl
    | some err =>
      by_cases h : err = ""
      · simp [h, isErr]
      · simp only [if_neg h, Option.getD_some]
        split_ifs <;> simp [isErr, h]
  · cases compileError with
    | none => rfl
    | some err =>
      by_cases h : err = ""
      · simp [h, isErr]
      · simp only [if_neg h, Option.getD_some]
        split_ifs <;> simp [isErr, h]
  · cases verificationError with
    | none => rfl
    | some err => split_ifs <;> simp [isErr]
  · cases runOutput with
    | none => rfl
    | some out => split_ifs <;> simp [isErr]
  · cases runOutput with
    | none => rfl
    | some out => split_ifs <;> simp [isErr]
  · cases runOutput with
    | none => rfl
    | some out => split_ifs <;> simp [isErr]

/-- Witness for the amended C6 at a concrete input: a present and
non-empty apply error makes the call succeed. -/
theorem c6_witness :
    (decideNextRetry .editApplyFailed .fullSource false false "" "" ""
        none none none false none none (some "boom") "" |> isErr) = false :=
  c6_missing_context_iff .editApplyFailed .fullSource false false "" "" ""
    none none none false none none (some "boom") ""

/-- C3 (corrected): the claim says strict mode alone keeps the retry in
edits mode, but the code requires `incremental and incremental_strict`;
with `incremental=False, incremental_strict=True` and a mismatch-token
error the decision is full-source mode. -/
theorem c3_counterexample :
    ((decideNextRetry .editApplyFailed .fullSource false true "s" "e" "b"
        none none none false none none
        (some "Edit #1: \x27old\x27 snippet not found in current source") "").toOption.map
          RetryDecision.nextMode)
      = some ResponseMode.fullSource
    ∧ ((decideNextRetry .editApplyFailed .fullSource false true "s" "e" "b"
        none none none false none none
        (some "Edit #1: \x27old\x27 snippet not found in current source") "").toOption.map
          RetryDecision.nextMode)
      ≠ some ResponseMode.edits := by
  refine ⟨rfl, ?_⟩
  intro h
  have h2 : some ResponseMode.fullSource = some ResponseMode.edits :=
    Eq.trans (rfl : _ = some ResponseMode.fullSource).symm h
  simp at h2

/-- C3 (amended): on `EditApplyFailed` with a non-empty apply error
containing one of the mismatch tokens, the next mode is
`StructuredEdits` exactly when both incremental mode and strict mode
are enabled, otherwise `FullSource` together with the fallback note;
with any other apply error the next mode is `StructuredEdits`. -/
theorem c3_retry_modes (currentMode : ResponseMode)
    (incremental incrementalStrict : Bool)
    (currentSource expectedOutput boardName : String)
    (compileError verificationError verificationStage : Option String)
    (verificationTimedOut : Bool)
    (runOutput validationError : Option String)
    (err lastAttemptFeedback : String) (hne : err ≠ "") :
    (editMismatchToken err = true → incremental = true → incrementalStrict = true →
      ((decideNextRetry .editApplyFailed currentMode incremental incrementalStrict
          currentSource expectedOutput boardName compileError verificationError
          verificationStage verificationTimedOut runOutput validationError
          (some err) lastAttemptFeedback).toOption.map RetryDecision.nextMode)
        = some ResponseMode.edits)
  ∧ (editMismatchToken err = true → (incremental && incrementalStrict) = false →
      ((decideNextRetry .editApplyFailed currentMode incremental incrementalStrict
          currentSource expectedOutput boardName compileError verificationError
          verificationStage verificationTimedOut runOutput validationError
          (some err) lastAttemptFeedback).toOption.map RetryDecision.nextMode)
        = some ResponseMode.fullSource
      ∧ ((decideNextRetry .editApplyFailed currentMode incremental incrementalStrict
          currentSource expectedOutput boardName compileError verificationError
          verificationStage verificationTimedOut runOutput validationError
          (some err) lastAttemptFeedback).toOption.map RetryDecision.note)
        = some (some "Switching next retry to full source mode due to edit/source mismatch."))
  ∧ (editMismatchToken err = false →
      ((decideNextRetry .editApplyFailed currentMode incremental incrementalStrict
          currentSource expectedOutput boardName compileError verificationError
          verificationStage verificationTimedOut runOutput validationError
          (some err) lastAttemptFeedback).toOption.map RetryDecision.nextMode)
        = some ResponseMode.edits) := by
  refine ⟨?_, ?_, ?_⟩
  · intro htok hinc hstrict
    simp [decideNextRetry, hne, htok, hinc, hstrict, Except.toOption]
  · intro htok hns
    rw [Bool.and_eq_false_iff] at hns
    rcases hns with h | h <;>
      simp [decideNextRetry, hne, htok, h, Except.toOption]
  · intro htok
    simp [decideNextRetry, hne, htok, Except.toOption]

/-- Witness for C3 (amended) at concrete inputs: strict incremental
keeps edits mode, non-strict falls back to full source. -/
theorem c3_retry_modes_witness :
    ((decideNextRetry .editApplyFailed .fullSource true true "s" "e" "b"
        none none none false none none
        (some "Edit #1: \x27old\x27 snippet not found in current source") "").toOption.map
          RetryDecision.nextMode)
      = some ResponseMode.edits
    ∧ ((decideNextRetry .editApplyFailed .fullSource true false "s" "e" "b"
        none none none false none none
        (some "Edit #1: \x27old\x27 snippet not found in current source") "").toOption.map
          RetryDecision.nextMode)
      = some ResponseMode.fullSource := by
  constructor
  · exact (c3_retry_modes .fullSource true true "s" "e" "b" none none none false
      none none "Edit #1: \x27old\x27 snippet not found in current source" ""
      (by decide)).1 (by decide) rfl rfl
  · exact ((c3_retry_modes .fullSource true false "s" "e" "b" none none none false
      none none "Edit #1: \x27old\x27 snippet not found in current source" ""
      (by decide)).2.1 (by decide) rfl).1

/-- C10 (confirmed): a `move_file` operation without a `path` field
resolves its move source through `_resolve_target_path`, so it uses the
configured default path (and fails with the missing-path error only
when no default is configured), while `create_file` and `delete_file`
go through `_required_path` and fail on an absent `path` field even
when a default path is configured. -/
theorem c10_move_default_create_delete_explicit (fs : Fs) (d nd q content : String)
    (hd : normalizeRelativePath d 0 "default_path" = .ok nd)
    (hnd : normalizeRelativePath nd 1 "path" = .ok nd) :
    applyWorkspaceEditInstructions fs
        [[("op", JVal.str "move_file"), ("new_path", JVal.str q)]] none
      = (fs, .error (.missingPath 1))
  ∧ applyWorkspaceEditInstructions fs
        [[("op", JVal.str "move_file"), ("new_path", JVal.str q)]] (some d)
      = applyWorkspaceEditInstructions fs
          [[("op", JVal.str "move_file"), ("new_path", JVal.str q),
            ("path", JVal.str nd)]] (some d)
  ∧ applyWorkspaceEditInstructions fs
        [[("op", JVal.str "create_file"), ("content", JVal.str content)]] (some d)
      = (fs, .error (.fieldNotString 1 "path"))
  ∧ applyWorkspaceEditInstructions fs
        [[("op", JVal.str "create_file"), ("content", JVal.str content)]] none
      = (fs, .error (.fieldNotString 1 "path"))
  ∧ applyWorkspaceEditInstructions fs [[("op", JVal.str "delete_file")]] (some d)
      = (fs, .error (.fieldNotString 1 "path"))
  ∧ applyWorkspaceEditInstructions fs [[("op", JVal.str "delete_file")]] none
      = (fs, .error (.fieldNotString 1 "path")) := by
  refine ⟨?_, ?_, ?_, ?_, ?_, ?_⟩
  · rfl
  · simp only [applyWorkspaceEditInstructions, normalizedDefault, hd, Except.map]
    simp [processEdits, dictGet, resolveTargetPath, requiredPathField, hnd,
      isTextEditOp]
  · simp only [applyWorkspaceEditInstructions, normalizedDefault, hd, Except.map]
    rfl
  · rfl
  · simp only [applyWorkspaceEditInstructions, normalizedDefault, hd, Except.map]
    rfl
  · rfl

/-- Witness for C10 at concrete inputs. -/
theorem c10_witness :
    applyWorkspaceEditInstructions [("agent_code.s", "X")]
        [[("op", JVal.str "move_file"), ("new_path", JVal.str "b.txt")]] none
      = ([("agent_code.s", "X")], .error (.missingPath 1))
  ∧ applyWorkspaceEditInstructions [("agent_code.s", "X")]
        [[("op", JVal.str "create_file"), ("content", JVal.str "c")]]
        (some "agent_code.s")
      = ([("agent_code.s", "X")], .error (.fieldNotString 1 "path")) := by
  have h := c10_move_default_create_delete_explicit [("agent_code.s", "X")]
    "agent_code.s" "agent_code.s" "b.txt" "c" (by rfl) (by rfl)
  exact ⟨h.1, h.2.2.1⟩

/-- Every failure of the flush loop carries operation index 0: its
possible errors are the re-checked path containment (raised with
`idx=0`, edits.py:180) and the two directory conflicts, none of which is
an error `on an operation`. -/
theorem writePhase_error_opIndex (cache : Cache) :
    ∀ (ps : List String) (fs fs2 : Fs) (e : EditError),
      writePhase cache fs ps = (fs2, some e) → e.opIndex = 0 := by
  intro ps
  induction ps with
  | nil =>
    intro fs fs2 e h
    simp [writePhase] at h
  | cons p rest ih =>
    intro fs fs2 e h
    by_cases hc : ("/".toList.isPrefixOf p.toList ∨ normPath p = ".."
        ∨ "../".toList.isPrefixOf (normPath p).toList)
    · simp only [writePhase, absoluteWorkspacePath, if_pos hc] at h
      injection h with h1 h2
      injection h2 with h3
      rw [← h3]
      rfl
    · simp only [writePhase, absoluteWorkspacePath, if_neg hc] at h
      cases hcv : (cacheGet cache p).getD none with
      | none =>
        simp only [hcv] at h
        exact ih _ _ _ h
      | some v =>
        simp only [hcv] at h
        by_cases hpc : hasAncestorFile fs p = true
        · rw [if_pos hpc] at h
          injection h with h1 h2
          injection h2 with h3
          rw [← h3]
          rfl
        · rw [if_neg hpc] at h
          by_cases hdc : isDirIn fs p = true
          · rw [if_pos hdc] at h
            injection h with h1 h2
            injection h2 with h3
            rw [← h3]
            rfl
          · rw [if_neg hdc] at h
            exact ih _ _ _ h

/-- C1 (confirmed): whenever `apply_workspace_edits` fails with a
parse, field, path, lookup or lifecycle error on an operation (all of
which carry the 1-based operation index baked into the message), the
workspace tree is returned byte for byte as it was: every such error is
raised by the in-memory validation loop, which performs no writes.  The
only failures the flush loop itself can produce carry index 0, so they
are excluded by the hypothesis. -/
theorem c1_failure_leaves_workspace_unchanged (fs : Fs) (edits : List Edit)
    (defaultPath : Option String) (err : EditError)
    (herr : (applyWorkspaceEditInstructions fs edits defaultPath).2 = .error err)
    (hidx : 1 ≤ err.opIndex) :
    (applyWorkspaceEditInstructions fs edits defaultPath).1 = fs := by
  cases hd : normalizedDefault defaultPath with
  | error e0 =>
    simp [applyWorkspaceEditInstructions, hd]
  | ok defaultRel =>
    cases hp : processEdits fs defaultRel edits 1 [] [] with
    | error e1 =>
      simp [applyWorkspaceEditInstructions, hd, hp]
    | ok cd =>
      obtain ⟨cache, dirty⟩ := cd
      cases hw : writePhase cache fs (sortStrings dirty) with
      | mk fs2 oe =>
        cases oe with
        | none =>
          simp only [applyWorkspaceEditInstructions, hd, hp, hw] at herr
          exact Except.noConfusion herr
        | some e2 =>
          simp only [applyWorkspaceEditInstructions, hd, hp, hw] at herr
          have he2 : e2 = err := by injection herr
          have h0 : err.opIndex = 0 := by
            rw [← he2]
            exact writePhase_error_opIndex cache (sortStrings dirty) fs fs2 e2 hw
          omega

/-- Witness for C1: a two-operation set whose second (last) operation
fails the `create_file` lifecycle check; the tree is unchanged. -/
theorem c1_witness :
    (applyWorkspaceEditInstructions [("a.txt", "x")]
        [[("op", JVal.str "create_file"), ("path", JVal.str "b.txt"),
          ("content", JVal.str "y")],
         [("op", JVal.str "create_file"), ("path", JVal.str "a.txt"),
          ("content", JVal.str "z")]] none).2
      = .error (.alreadyExists 2 "a.txt")
    ∧ (applyWorkspaceEditInstructions [("a.txt", "x")]
        [[("op", JVal.str "create_file"), ("path", JVal.str "b.txt"),
          ("content", JVal.str "y")],
         [("op", JVal.str "create_file"), ("path", JVal.str "a.txt"),
          ("content", JVal.str "z")]] none).1
      = [("a.txt", "x")] := by
  constructor
  · rfl
  · exact c1_failure_leaves_workspace_unchanged [("a.txt", "x")]
      [[("op", JVal.str "create_file"), ("path", JVal.str "b.txt"),
        ("content", JVal.str "y")],
       [("op", JVal.str "create_file"), ("path", JVal.str "a.txt"),
        ("content", JVal.str "z")]] none (.alreadyExists 2 "a.txt") (by rfl) (by decide)

/-- A supplied path string that is absolute or escapes the workspace
root after normalization, in the sense of `_normalize_relative_path`:
non-blank, and normalizing yields an absolute path, `..` itself, or a
path climbing out through a leading `../`. -/
def badPathStr (s : String) : Bool :=
  pyStrip s ≠ "" &&
    ("/".toList.isPrefixOf (normPath (pyStrip s)).toList ||
     normPath (pyStrip s) = ".." ||
     "../".toList.isPrefixOf (normPath (pyStrip s)).toList)

/-- The path errors of the taxonomy: `AbsolutePathRejected` and
`PathEscape`. -/
def isPathErr : EditError → Bool
  | .absolutePath _ _ _ => true
  | .pathEscape _ _ _ => true
  | _ => false

/-- `_normalize_relative_path` rejects every bad path string with a
path error carrying the given operation index. -/
theorem normalizeRelativePath_badPath (s : String) (idx : Nat) (field : String)
    (hbad : badPathStr s = true) :
    ∃ e, normalizeRelativePath s idx field = .error e ∧ isPathErr e = true
      ∧ e.opIndex = idx := by
  unfold badPathStr at hbad
  rw [Bool.and_eq_true] at hbad
  obtain ⟨hne, hdis⟩ := hbad
  have hne2 : ¬ (pyStrip s = "") := by
    intro hc
    rw [hc] at hne
    simp at hne
  unfold normalizeRelativePath
  rw [if_neg hne2]
  by_cases habs : "/".toList.isPrefixOf (normPath (pyStrip s)).toList = true
  · rw [if_pos habs]
    exact ⟨_, rfl, rfl, rfl⟩
  · rw [if_neg habs]
    have hesc : normPath (pyStrip s) = "." ∨ normPath (pyStrip s) = ".."
        ∨ "../".toList.isPrefixOf (normPath (pyStrip s)).toList = true := by
      rw [Bool.or_eq_true, Bool.or_eq_true] at hdis
      rcases hdis with (h | h) | h
      · exact absurd h habs
      · exact Or.inr (Or.inl (by simpa using h))
      · exact Or.inr (Or.inr h)
    rw [if_pos (by simpa using hesc)]
    exact ⟨_, rfl, rfl, rfl⟩

/-- Processing a list that begins with an operation whose `path` field
is a bad path string fails immediately with a path error at that
operation index, for every operation kind that consults `path`. -/
theorem processEdits_badPath_head (fs : Fs) (dflt : Option String) (e : Edit)
    (post : List Edit) (idx : Nat) (cache : Cache) (dirty : List String)
    (s : String) (hpath : dictGet e "path" = some (.str s))
    (hbad : badPathStr s = true)
    (hop : ∃ op, dictGet e "op" = some (.str op) ∧
      (isTextEditOp op = true ∨ op = "create_file" ∨ op = "delete_file"
        ∨ op = "move_file")) :
    ∃ err, processEdits fs dflt (e :: post) idx cache dirty = .error err
      ∧ isPathErr err = true ∧ err.opIndex = idx := by
  obtain ⟨op, hopeq, hkind⟩ := hop
  obtain ⟨err, herr, hpe, hix⟩ := normalizeRelativePath_badPath s idx "path" hbad
  rcases hkind with htext | hcr | hdel | hmv
  · refine ⟨err, ?_, hpe, hix⟩
    simp only [processEdits, hopeq, htext, if_true, resolveTargetPath, hpath, herr]
  · subst hcr
    refine ⟨err, ?_, hpe, hix⟩
    simp only [processEdits, hopeq, requiredPathField, hpath, herr]
    rfl
  · subst hdel
    refine ⟨err, ?_, hpe, hix⟩
    simp only [processEdits, hopeq, requiredPathField, hpath, herr]
    rfl
  · subst hmv
    refine ⟨err, ?_, hpe, hix⟩
    simp only [processEdits, hopeq, resolveTargetPath, hpath, herr]
    rfl

/-- If processing reaches a tail that always fails, the whole list
fails: the loop either aborts earlier or propagates the tail failure. -/
theorem processEdits_reach (fs : Fs) (dflt : Option String) (tail : List Edit)
    (base : ∀ idx cache dirty, isErr (processEdits fs dflt tail idx cache dirty) = true) :
    ∀ (pre : List Edit) (idx : Nat) (cache : Cache) (dirty : List String),
      isErr (processEdits fs dflt (pre ++ tail) idx cache dirty) = true := by
  intro pre
  induction pre with
  | nil => exact base
  | cons e0 pre2 ih =>
    intro idx cache dirty
    simp only [List.cons_append, processEdits]
    repeat' split
    all_goals first | rfl | exact ih _ _ _

/-- C5 (confirmed): an operation that supplies an absolute or
workspace-escaping `path` makes `apply_workspace_edits` fail and leaves
the tree untouched; when that operation comes first the failure is a
path error (`PathEscape` / `AbsolutePathRejected`) at index 1; and in
particular `create_file` with path `../outside.txt` fails with
`PathEscape` against any workspace, unmodified. -/
theorem c5_path_safety (fs : Fs) (defaultPath : Option String)
    (pre post : List Edit) (e : Edit) (s : String)
    (hpath : dictGet e "path" = some (.str s)) (hbad : badPathStr s = true)
    (hop : ∃ op, dictGet e "op" = some (.str op) ∧
      (isTextEditOp op = true ∨ op = "create_file" ∨ op = "delete_file"
        ∨ op = "move_file")) :
    isErr (applyWorkspaceEditInstructions fs (pre ++ e :: post) defaultPath).2 = true
  ∧ (applyWorkspaceEditInstructions fs (pre ++ e :: post) defaultPath).1 = fs
  ∧ (∀ defaultRel, normalizedDefault defaultPath = .ok defaultRel →
      ∃ err, (applyWorkspaceEditInstructions fs (e :: post) defaultPath).2 = .error err
        ∧ isPathErr err = true ∧ err.opIndex = 1)
  ∧ (∀ fs2 : Fs,
      applyWorkspaceEditInstructions fs2
        [[("op", JVal.str "create_file"), ("path", JVal.str "../outside.txt"),
          ("content", JVal.str "nope")]] none
        = (fs2, .error (.pathEscape 1 "path" "../outside.txt"))) := by
  have base : ∀ (dflt : Option String) (idx : Nat) (cache : Cache) (dirty : List String),
      isErr (processEdits fs dflt (e :: post) idx cache dirty) = true := by
    intro dflt idx cache dirty
    obtain ⟨err, h1, -, -⟩ :=
      processEdits_badPath_head fs dflt e post idx cache dirty s hpath hbad hop
    rw [h1]
    rfl
  have hmain : ∀ (dr : Option String),
      ∃ er, processEdits fs dr (pre ++ e :: post) 1 [] [] = .error er := by
    intro dr
    have hperr := processEdits_reach fs dr (e :: post) (base dr) pre 1 [] []
    cases hpp : processEdits fs dr (pre ++ e :: post) 1 [] [] with
    | error er => exact ⟨er, rfl⟩
    | ok v =>
      rw [hpp] at hperr
      exact absurd hperr (by simp [isErr])
  refine ⟨?_, ?_, ?_, ?_⟩
  · cases hd : normalizedDefault defaultPath with
    | error e0 => simp [applyWorkspaceEditInstructions, hd, isErr]
    | ok dr =>
      obtain ⟨er, h2⟩ := hmain dr
      simp [applyWorkspaceEditInstructions, hd, h2, isErr]
  · cases hd : normalizedDefault defaultPath with
    | error e0 => simp [applyWorkspaceEditInstructions, hd]
    | ok dr =>
      obtain ⟨er, h2⟩ := hmain dr
      simp [applyWorkspaceEditInstructions, hd, h2]
  · intro dr hdr
    obtain ⟨err, h1, hpe, hix⟩ :=
      processEdits_badPath_head fs dr e post 1 [] [] s hpath hbad hop
    refine ⟨err, ?_, hpe, hix⟩
    simp [applyWorkspaceEditInstructions, hdr, h1]
  · intro fs2
    rfl

/-- Witness for C5 at a concrete input. -/
theorem c5_witness :
    isErr (applyWorkspaceEditInstructions [("x.txt", "q")]
        ([] ++ [("op", JVal.str "create_file"), ("path", JVal.str "../outside.txt"),
          ("content", JVal.str "nope")] :: []) none).2 = true
    ∧ (applyWorkspaceEditInstructions [("x.txt", "q")]
        ([] ++ [("op", JVal.str "create_file"), ("path", JVal.str "../outside.txt"),
          ("content", JVal.str "nope")] :: []) none).1 = [("x.txt", "q")] := by
  have h := c5_path_safety [("x.txt", "q")] none [] []
    [("op", JVal.str "create_file"), ("path", JVal.str "../outside.txt"),
      ("content", JVal.str "nope")] "../outside.txt" rfl (by decide)
    ⟨"create_file", rfl, by decide⟩
  exact ⟨h.1, h.2.1⟩

/-- `strFind` returns `none` exactly when the needle occurs nowhere. -/
theorem strFind_eq_none_iff (ned : List Char) :
    ∀ hay : List Char, strFind ned hay = none ↔
      ∀ i, ned.isPrefixOf (hay.drop i) = false := by
  intro hay
  induction hay with
  | nil =>
    by_cases h : ned.isPrefixOf ([] : List Char) = true
    · simp only [strFind, if_pos h]
      constructor
      · intro hc
        exact Option.noConfusion hc
      · intro hall
        have := hall 0
        rw [List.drop_nil] at this
        rw [h] at this
        exact Bool.noConfusion this
    · simp only [strFind, if_neg h]
      constructor
      · intro _ i
        rw [List.drop_nil]
        exact Bool.eq_false_iff.mpr h
      · intro _
        trivial
  | cons c t ih =>
    by_cases h : ned.isPrefixOf (c :: t) = true
    · simp only [strFind, if_pos h]
      constructor
      · intro hc
        exact Option.noConfusion hc
      · intro hall
        have := hall 0
        simp only [List.drop_zero] at this
        rw [h] at this
        exact Bool.noConfusion this
    · simp only [strFind, if_neg h]
      rw [Option.map_eq_none']
      rw [ih]
      constructor
      · intro hall i
        cases i with
        | zero =>
          simp only [List.drop_zero]
          exact Bool.eq_false_iff.mpr h
        | succ j =>
          simp only [List.drop_succ_cons]
          exact hall j
      · intro hall i
        have := hall (i + 1)
        simpa using this

/-- `strFind` returns the least occurrence position. -/
theorem strFind_eq_some_iff (ned : List Char) :
    ∀ (hay : List Char) (p : Nat), strFind ned hay = some p ↔
      (ned.isPrefixOf (hay.drop p) = true ∧
        ∀ i, i < p → ned.isPrefixOf (hay.drop i) = false) := by
  intro hay
  induction hay with
  | nil =>
    intro p
    by_cases h : ned.isPrefixOf ([] : List Char) = true
    · simp only [strFind, if_pos h]
      constructor
      · intro hc
        have hp0 : p = 0 := by
          injection hc with h1
          omega
        subst hp0
        exact ⟨by simpa using h, fun i hi => absurd hi (by omega)⟩
      · intro ⟨h1, h2⟩
        cases p with
        | zero => rfl
        | succ q =>
          have := h2 0 (by omega)
          rw [List.drop_nil] at this
          rw [h] at this
          exact Bool.noConfusion this
    · simp only [strFind, if_neg h]
      constructor
      · intro hc
        exact Option.noConfusion hc
      · intro ⟨h1, _⟩
        rw [List.drop_nil] at h1
        rw [h1] at h
        exact absurd rfl h
  | cons c t ih =>
    intro p
    by_cases h : ned.isPrefixOf (c :: t) = true
    · simp only [strFind, if_pos h]
      constructor
      · intro hc
        have hp0 : p = 0 := by
          injection hc with h1
          omega
        subst hp0
        exact ⟨by simpa using h, fun i hi => absurd hi (by omega)⟩
      · intro ⟨h1, h2⟩
        cases p with
        | zero => rfl
        | succ q =>
          have := h2 0 (by omega)
          simp only [List.drop_zero] at this
          rw [h] at this
          exact Bool.noConfusion this
    · simp only [strFind, if_neg h]
      constructor
      · intro hc
        rw [Option.map_eq_some'] at hc
        obtain ⟨q, hq, hpq⟩ := hc
        rw [ih q] at hq
        subst hpq
        refine ⟨by simpa using hq.1, ?_⟩
        intro i hi
        cases i with
        | zero =>
          simp only [List.drop_zero]
          exact Bool.eq_false_iff.mpr h
        | succ j =>
          simp only [List.drop_succ_cons]
          exact hq.2 j (by omega)
      · intro ⟨h1, h2⟩
        cases p with
        | zero =>
          simp only [List.drop_zero] at h1
          rw [h1] at h
          exact absurd rfl h
        | succ q =>
          simp only [List.drop_succ_cons] at h1
          have hq : strFind ned t = some q := by
            rw [ih q]
            refine ⟨h1, ?_⟩
            intro j hj
            have := h2 (j + 1) (by omega)
            simpa using this
          rw [hq]
          rfl

/-- A non-empty prefix forces a non-empty list. -/
theorem isPrefixOf_ne_nil {ned l : List Char} (h : ned.isPrefixOf l = true)
    (hne : ned ≠ []) : l ≠ [] := by
  intro hl
  subst hl
  cases ned with
  | nil => exact hne rfl
  | cons a b => exact Bool.noConfusion h

/-- Membership in the scan loop output, with enough fuel: exactly the
offsets of the occurrences, overlapping ones included. -/
theorem mem_findPosAux (ned : List Char) (hne : ned ≠ []) :
    ∀ (fuel : Nat) (hay : List Char) (offset x : Nat), hay.length < fuel →
      (x ∈ findPosAux ned fuel hay offset ↔
        ∃ j, ned.isPrefixOf (hay.drop j) = true ∧ x = offset + j) := by
  intro fuel
  induction fuel with
  | zero =>
    intro hay offset x hlt
    exact absurd hlt (by omega)
  | succ fuel ih =>
    intro hay offset x hlt
    cases hs : strFind ned hay with
    | none =>
      simp only [findPosAux, hs]
      rw [strFind_eq_none_iff] at hs
      simp only [List.not_mem_nil, false_iff]
      rintro ⟨j, hj, -⟩
      rw [hs j] at hj
      exact Bool.noConfusion hj
    | some p =>
      rw [strFind_eq_some_iff] at hs
      obtain ⟨hp, hmin⟩ := hs
      have hplen : p < hay.length := by
        have hd : hay.drop p ≠ [] := isPrefixOf_ne_nil hp hne
        by_contra hc
        push_neg at hc
        rw [List.drop_eq_nil_of_le hc] at hd
        exact hd rfl
      have hlen2 : (hay.drop (p + 1)).length < fuel := by
        rw [List.length_drop]
        omega
      have hs2 : strFind ned hay = some p := by
        rw [strFind_eq_some_iff]
        exact ⟨hp, hmin⟩
      simp only [findPosAux, hs2, List.mem_cons]
      rw [ih (hay.drop (p + 1)) (offset + p + 1) x hlen2]
      constructor
      · rintro (hx | ⟨j2, hj2, hx2⟩)
        · exact ⟨p, hp, hx⟩
        · refine ⟨p + 1 + j2, ?_, by omega⟩
          have hdd : List.drop j2 (List.drop (p + 1) hay) = List.drop (p + 1 + j2) hay := by
            rw [List.drop_drop]
          rw [hdd] at hj2
          exact hj2
      · rintro ⟨j, hj, hx⟩
        rcases Nat.lt_trichotomy j p with hjp | hjp | hjp
        · rw [hmin j hjp] at hj
          exact Bool.noConfusion hj
        · subst hjp
          exact Or.inl hx
        · right
          refine ⟨j - p - 1, ?_, by omega⟩
          have hdd : List.drop (j - p - 1) (List.drop (p + 1) hay) = List.drop j hay := by
            rw [List.drop_drop]
            congr 1
            omega
          rw [hdd]
          exact hj

/-- The position list of `_find_occurrence` holds exactly the
occurrence start positions, overlapping ones included. -/
theorem mem_findPositions (hay ned : List Char) (hne : ned ≠ []) (x : Nat) :
    x ∈ findPositions hay ned ↔ ned.isPrefixOf (hay.drop x) = true := by
  unfold findPositions
  rw [mem_findPosAux ned hne (hay.length + 1) hay 0 x (by omega)]
  constructor
  · rintro ⟨j, hj, hx⟩
    have hjx : j = x := by omega
    subst hjx
    exact hj
  · intro hx
    exact ⟨x, hx, by omega⟩

/-- C4 (confirmed): snippet/anchor lookup — an empty needle fails
`EmptyField`; the match list holds exactly the occurrence positions the
start+1 scan produces (so overlapping occurrences are all found); zero
matches fail `SnippetNotFound`; an omitted occurrence with more than
one match fails `AmbiguousSnippet`; an occurrence beyond the match
count fails `OccurrenceOutOfRange`; otherwise the 1-based indexed match
is selected. -/
theorem c4_find_occurrence (hay ned : List Char) (occurrence : Option Nat)
    (idx : Nat) (field : String) :
    (ned = [] →
      findOccurrence hay ned occurrence idx field = .error (.emptyField idx field))
  ∧ (ned ≠ [] → ∀ x, x ∈ findPositions hay ned ↔ ned.isPrefixOf (hay.drop x) = true)
  ∧ (ned ≠ [] → findPositions hay ned = [] →
      findOccurrence hay ned occurrence idx field = .error (.snippetNotFound idx field))
  ∧ (ned ≠ [] → occurrence = none → 1 < (findPositions hay ned).length →
      findOccurrence hay ned occurrence idx field
        = .error (.ambiguousSnippet idx field (findPositions hay ned).length))
  ∧ (ned ≠ [] → occurrence = none → (findPositions hay ned).length = 1 →
      findOccurrence hay ned occurrence idx field
        = .ok ((findPositions hay ned).headD 0))
  ∧ (∀ k, ned ≠ [] → occurrence = some k → findPositions hay ned ≠ [] →
      (findPositions hay ned).length < k →
      findOccurrence hay ned occurrence idx field
        = .error (.occurrenceOutOfRange idx field k (findPositions hay ned).length))
  ∧ (∀ k, ned ≠ [] → occurrence = some k → findPositions hay ned ≠ [] →
      k ≤ (findPositions hay ned).length →
      findOccurrence hay ned occurrence idx field
        = .ok ((findPositions hay ned).getD (k - 1) 0)) := by
  refine ⟨?_, ?_, ?_, ?_, ?_, ?_, ?_⟩
  · intro hne
    subst hne
    rfl
  · intro hne x
    exact mem_findPositions hay ned hne x
  · intro hne hnil
    unfold findOccurrence
    rw [if_neg (by simpa using hne)]
    simp only [hnil]
    rfl
  · intro hne hocc hlen
    subst hocc
    unfold findOccurrence
    rw [if_neg (by simpa using hne)]
    rw [if_neg (by
      intro hc
      rw [List.isEmpty_iff] at hc
      rw [hc] at hlen
      simp at hlen)]
    rw [if_pos (by omega)]
  · intro hne hocc hlen
    subst hocc
    unfold findOccurrence
    rw [if_neg (by simpa using hne)]
    rw [if_neg (by
      intro hc
      rw [List.isEmpty_iff] at hc
      rw [hc] at hlen
      simp at hlen)]
    rw [if_neg (by omega)]
  · intro k hne hocc hnil hlen
    subst hocc
    have h1 : ¬ ned.isEmpty = true := by simpa using hne
    have h2 : ¬ (findPositions hay ned).isEmpty = true := by simpa using hnil
    simp [findOccurrence, h1, h2, hlen]
  · intro k hne hocc hnil hlen
    subst hocc
    have h1 : ¬ ned.isEmpty = true := by simpa using hne
    have h2 : ¬ (findPositions hay ned).isEmpty = true := by simpa using hnil
    simp [findOccurrence, h1, h2, Nat.not_lt.mpr hlen]

/-- Witness for C4: overlapping occurrences of `aa` in `aaa` are both
found, so the omitted occurrence is ambiguous, and occurrence 2 selects
position 1. -/
theorem c4_witness :
    (1 ∈ findPositions "aaa".toList "aa".toList
      ↔ "aa".toList.isPrefixOf ("aaa".toList.drop 1) = true)
    ∧ findOccurrence "aaa".toList "aa".toList none 1 "old"
        = .error (.ambiguousSnippet 1 "old" 2)
    ∧ findOccurrence "aaa".toList "aa".toList (some 2) 1 "old" = .ok 1 := by
  refine ⟨?_, ?_, ?_⟩
  · exact (c4_find_occurrence "aaa".toList "aa".toList none 1 "old").2.1
      (by decide) 1
  · exact (c4_find_occurrence "aaa".toList "aa".toList none 1 "old").2.2.2.1
      (by decide) rfl (by decide)
  · exact (c4_find_occurrence "aaa".toList "aa".toList (some 2) 1 "old").2.2.2.2.2.2 2
      (by decide) rfl (by decide) (by decide)

/-- A successful lookup without an occurrence index implies a non-empty
needle and that the result is one of the occurrence positions. -/
theorem findOccurrence_none_ok (hay ned : List Char) (idx : Nat) (field : String)
    (p : Nat) (h : findOccurrence hay ned none idx field = .ok p) :
    ned ≠ [] ∧ p ∈ findPositions hay ned := by
  unfold findOccurrence at h
  by_cases h1 : ned.isEmpty = true
  · rw [if_pos h1] at h
    exact Except.noConfusion h
  · rw [if_neg h1] at h
    by_cases h2 : (findPositions hay ned).isEmpty = true
    · rw [if_pos h2] at h
      exact Except.noConfusion h
    · rw [if_neg h2] at h
      by_cases h3 : (findPositions hay ned).length > 1
      · rw [if_pos h3] at h
        exact Except.noConfusion h
      · rw [if_neg h3] at h
        injection h with hp
        refine ⟨by simpa using h1, ?_⟩
        rw [← hp]
        cases hps : findPositions hay ned with
        | nil =>
          rw [hps] at h2
          exact absurd rfl h2
        | cons a t => simp

/-- Splitting a list at a matched occurrence of the needle. -/
theorem decomp_at_match (l ned : List Char) (p : Nat)
    (h : ned.isPrefixOf (l.drop p) = true) :
    l = l.take p ++ ned ++ l.drop (p + ned.length) := by
  obtain ⟨t, ht⟩ := List.isPrefixOf_iff_prefix.mp h
  have ht2 : l.drop p = ned ++ t := ht.symm
  have htt : t = l.drop (p + ned.length) := by
    have h3 : List.drop ned.length (l.drop p) = t := by
      rw [ht2]
      exact List.drop_left ned t
    rw [← h3, List.drop_drop]
  calc l = l.take p ++ l.drop p := (List.take_append_drop p l).symm
    _ = l.take p ++ (ned ++ t) := by rw [ht2]
    _ = l.take p ++ ned ++ l.drop (p + ned.length) := by
        rw [htt, List.append_assoc]

/-- The `replace_snippet` dictionary `{"op": ..., "old": ...,
"new": ...}` (no occurrence). -/
def replaceSnippetOp (old new : String) : Edit :=
  [("op", JVal.str "replace_snippet"), ("old", JVal.str old), ("new", JVal.str new)]

/-- Applying the single replace-snippet instruction reduces to
`_replace_once` without an occurrence index. -/
theorem applyEdit_replaceOp (T : List Char) (old new : String) :
    applyEditInstructions T [replaceSnippetOp old new]
      = replaceOnce T old.toList new.toList none 1 := by
  have h1 : applyTextEdit T (replaceSnippetOp old new) 1
      = replaceOnce T old.toList new.toList none 1 := rfl
  cases h : replaceOnce T old.toList new.toList none 1 with
  | error e =>
    rw [h] at h1
    simp [applyEditInstructions, applyEditsGo, h1]
  | ok u =>
    rw [h] at h1
    simp [applyEditInstructions, applyEditsGo, h1]

/-- The empty needle occurs at position 0 of every haystack, so the
scan output is never empty for it. -/
theorem findPositions_nil_ne (l : List Char) : findPositions l [] ≠ [] := by
  cases l <;> simp [findPositions, findPosAux, strFind, List.isPrefixOf]

/-- C9 (confirmed): when the snippet `old` of a `replace_snippet`
operation is unambiguous in `T` and the apply succeeds with result
`T1`, re-applying the same operation returns `T1` again only if
`new = old`; and whenever `old` no longer occurs in `T1`, re-applying
fails with `SnippetNotFound`. -/
theorem c9_replace_snippet_idempotency (T T1 : List Char) (old new : String)
    (_huniq : (findPositions T old.toList).length = 1)
    (_happly : applyEditInstructions T [replaceSnippetOp old new] = .ok T1) :
    (applyEditInstructions T1 [replaceSnippetOp old new] = .ok T1 → new = old)
  ∧ (findPositions T1 old.toList = [] →
      applyEditInstructions T1 [replaceSnippetOp old new]
        = .error (.snippetNotFound 1 "old")) := by
  constructor
  · intro hagain
    rw [applyEdit_replaceOp] at hagain
    unfold replaceOnce at hagain
    cases hf : findOccurrence T1 old.toList none 1 "old" with
    | error e =>
      rw [hf] at hagain
      exact Except.noConfusion hagain
    | ok p =>
      rw [hf] at hagain
      simp only [Except.map] at hagain
      injection hagain with heq
      obtain ⟨hne, hmem⟩ := findOccurrence_none_ok T1 old.toList 1 "old" p hf
      have hpre : old.toList.isPrefixOf (T1.drop p) = true :=
        (mem_findPositions T1 old.toList hne p).mp hmem
      have hdec := decomp_at_match T1 old.toList p hpre
      have heq2 : T1.take p ++ new.toList ++ T1.drop (p + old.toList.length)
          = T1.take p ++ old.toList ++ T1.drop (p + old.toList.length) :=
        heq.trans hdec
      rw [List.append_assoc, List.append_assoc] at heq2
      have heq3 := List.append_cancel_left heq2
      have heq4 := List.append_cancel_right heq3
      exact String.ext heq4
  · intro hnone
    rw [applyEdit_replaceOp]
    unfold replaceOnce
    by_cases ho : old.toList = []
    · rw [ho] at hnone
      exact absurd hnone (findPositions_nil_ne T1)
    · unfold findOccurrence
      rw [if_neg (by simpa using ho)]
      rw [if_pos (by simpa using hnone)]
      rfl

/-- Witness for C9: `T = "ab"`, `old = "b"`, `new = "c"` — the snippet
is unique, the result is `"ac"`, `old` no longer occurs, and the
re-application fails `SnippetNotFound`. -/
theorem c9_witness :
    applyEditInstructions "ac".toList [replaceSnippetOp "b" "c"]
      = .error (.snippetNotFound 1 "old") := by
  exact (c9_replace_snippet_idempotency "ab".toList "ac".toList "b" "c"
    (by decide) (by decide)).2 (by decide)

theorem fsLookup_fsSet_self (fs : Fs) (p : String) (v : String) :
    fsLookup (fsSet fs p v) p = some v := by
  induction fs with
  | nil => simp [fsSet, fsLookup]
  | cons e rest ih =>
    obtain ⟨k, w⟩ := e
    by_cases h : k = p
    · simp [fsSet, fsLookup, h]
    · simp [fsSet, fsLookup, h, ih]

theorem fsLookup_fsSet_ne (fs : Fs) (p q v : String) (h : p ≠ q) :
    fsLookup (fsSet fs p v) q = fsLookup fs q := by
  induction fs with
  | nil => simp [fsSet, fsLookup, h]
  | cons e rest ih =>
    obtain ⟨k, w⟩ := e
    by_cases hk : k = p
    · subst hk
      simp [fsSet, fsLookup, h]
    · simp [fsSet, fsLookup, hk, ih]

theorem fsLookup_fsRemove_self (fs : Fs) (p : String) :
    fsLookup (fsRemove fs p) p = none := by
  induction fs with
  | nil => simp [fsRemove, fsLookup]
  | cons e rest ih =>
    obtain ⟨k, w⟩ := e
    by_cases h : k = p
    · simp [fsRemove, fsLookup, h, ih]
    · simp [fsRemove, fsLookup, h, ih]

theorem fsLookup_fsRemove_ne (fs : Fs) (p q : String) (h : p ≠ q) :
    fsLookup (fsRemove fs p) q = fsLookup fs q := by
  induction fs with
  | nil => simp [fsRemove, fsLookup]
  | cons e rest ih =>
    obtain ⟨k, w⟩ := e
    by_cases hk : k = p
    · subst hk
      simp [fsRemove, fsLookup, h, ih]
    · simp [fsRemove, fsLookup, hk, ih]

theorem charListLe_total (a : List Char) :
    ∀ b, charListLe a b = true ∨ charListLe b a = true := by
  induction a with
  | nil => intro b; left; rfl
  | cons x xs ih =>
    intro b
    cases b with
    | nil => right; rfl
    | cons y ys =>
      simp only [charListLe]
      rcases Nat.lt_trichotomy x.toNat y.toNat with h | h | h
      · left
        rw [if_pos h]
      · rw [if_neg (by omega), if_neg (by omega), if_neg (by omega), if_neg (by omega)]
        exact ih ys
      · right
        rw [if_pos h]

theorem charListLe_trans (a : List Char) :
    ∀ b c, charListLe a b = true → charListLe b c = true → charListLe a c = true := by
  induction a with
  | nil => intro b c _ _; rfl
  | cons x xs ih =>
    intro b c hab hbc
    cases b with
    | nil => exact absurd hab (by simp [charListLe])
    | cons y ys =>
      cases c with
      | nil => exact absurd hbc (by simp [charListLe])
      | cons z zs =>
        simp only [charListLe] at hab hbc ⊢
        rcases Nat.lt_trichotomy x.toNat y.toNat with h1 | h1 | h1 <;>
          rcases Nat.lt_trichotomy y.toNat z.toNat with h2 | h2 | h2
        all_goals first
          | (rw [if_pos (by omega)])
          | (rw [if_neg (by omega), if_neg (by omega)]
             rw [if_neg (by omega), if_neg (by omega)] at hab hbc
             exact ih ys zs hab hbc)
          | (exfalso
             rw [if_neg (by omega), if_pos (by omega)] at hab
             exact Bool.noConfusion hab)
          | (exfalso
             rw [if_neg (by omega), if_pos (by omega)] at hbc
             exact Bool.noConfusion hbc)

theorem strLe_total (p q : String) : strLe p q = true ∨ strLe q p = true :=
  charListLe_total p.toList q.toList

theorem strLe_trans (p q r : String) (h1 : strLe p q = true) (h2 : strLe q r = true) :
    strLe p r = true :=
  charListLe_trans p.toList q.toList r.toList h1 h2

theorem sortedInsert_perm (p : String) (l : List String) :
    List.Perm (sortedInsert p l) (p :: l) := by
  induction l with
  | nil => rfl
  | cons q rest ih =>
    by_cases h : strLe p q = true
    · simp [sortedInsert, h]
    · simp only [sortedInsert, if_neg h]
      exact List.Perm.trans (List.Perm.cons q ih) (List.Perm.swap p q rest)

theorem sortStrings_perm (l : List String) : List.Perm (sortStrings l) l := by
  induction l with
  | nil => rfl
  | cons p rest ih =>
    exact List.Perm.trans (sortedInsert_perm p (sortStrings rest))
      (List.Perm.cons p ih)

theorem mem_sortStrings (l : List String) (p : String) :
    p ∈ sortStrings l ↔ p ∈ l :=
  (sortStrings_perm l).mem_iff

theorem sortedInsert_pairwise (p : String) (l : List String)
    (h : l.Pairwise (fun a b => strLe a b = true)) :
    (sortedInsert p l).Pairwise (fun a b => strLe a b = true) := by
  induction l with
  | nil => simp [sortedInsert]
  | cons q rest ih =>
    rw [List.pairwise_cons] at h
    obtain ⟨hq, hrest⟩ := h
    by_cases hle : strLe p q = true
    · simp only [sortedInsert, if_pos hle]
      rw [List.pairwise_cons]
      refine ⟨?_, ?_⟩
      · intro r hr
        rcases List.mem_cons.mp hr with hr | hr
        · subst hr; exact hle
        · exact strLe_trans p q r hle (hq r hr)
      · rw [List.pairwise_cons]
        exact ⟨hq, hrest⟩
    · simp only [sortedInsert, if_neg hle]
      rw [List.pairwise_cons]
      refine ⟨?_, ih hrest⟩
      intro r hr
      have hr2 : r ∈ p :: rest := (sortedInsert_perm p rest).mem_iff.mp hr
      rcases List.mem_cons.mp hr2 with hr2 | hr2
      · rcases strLe_total p q with ht | ht
        · exact absurd ht hle
        · rw [hr2]
          exact ht
      · exact hq r hr2

theorem sortStrings_pairwise (l : List String) :
    (sortStrings l).Pairwise (fun a b => strLe a b = true) := by
  induction l with
  | nil => simp [sortStrings]
  | cons p rest ih => exact sortedInsert_pairwise p (sortStrings rest) ih

/-- What a successful flush leaves on disk: every flushed path holds
its cached state (content written, MISSING deleted), every other path
is untouched.  Because a given path is always flushed to the same
cached value, no distinctness assumption is needed. -/
theorem writePhase_ok_lookup (cache : Cache) :
    ∀ (ps : List String) (fs fs2 : Fs), writePhase cache fs ps = (fs2, none) →
      (∀ p, p ∈ ps → fsLookup fs2 p = (cacheGet cache p).getD none)
      ∧ (∀ p, p ∉ ps → fsLookup fs2 p = fsLookup fs p) := by
  intro ps
  induction ps with
  | nil =>
    intro fs fs2 h
    injection h with h1 h2
    subst h1
    exact ⟨fun p hp => absurd hp (List.not_mem_nil p), fun p _ => rfl⟩
  | cons p rest ih =>
    intro fs fs2 h
    by_cases hc : ("/".toList.isPrefixOf p.toList = true ∨ normPath p = ".."
        ∨ "../".toList.isPrefixOf (normPath p).toList = true)
    · simp only [writePhase, absoluteWorkspacePath, if_pos hc] at h
      injection h with h1 h2
      exact Option.noConfusion h2
    · simp only [writePhase, absoluteWorkspacePath, if_neg hc] at h
      cases hcv : (cacheGet cache p).getD none with
      | none =>
        simp only [hcv] at h
        obtain ⟨ha, hb⟩ := ih (fsRemove fs p) fs2 h
        refine ⟨?_, ?_⟩
        · intro q hq
          rcases List.mem_cons.mp hq with hq | hq
          · subst hq
            by_cases hqr : q ∈ rest
            · exact ha q hqr
            · rw [hb q hqr, fsLookup_fsRemove_self, hcv]
          · exact ha q hq
        · intro q hq
          have hqp : q ≠ p := fun hc2 => hq (hc2 ▸ List.mem_cons_self p rest)
          have hqr : q ∉ rest := fun hc2 => hq (List.mem_cons_of_mem p hc2)
          rw [hb q hqr, fsLookup_fsRemove_ne fs p q (fun hc2 => hqp hc2.symm)]
      | some v =>
        simp only [hcv] at h
        by_cases hpc : hasAncestorFile fs p = true
        · rw [if_pos hpc] at h
          injection h with h1 h2
          exact Option.noConfusion h2
        · rw [if_neg hpc] at h
          by_cases hdc : isDirIn fs p = true
          · rw [if_pos hdc] at h
            injection h with h1 h2
            exact Option.noConfusion h2
          · rw [if_neg hdc] at h
            obtain ⟨ha, hb⟩ := ih (fsSet fs p v) fs2 h
            refine ⟨?_, ?_⟩
            · intro q hq
              rcases List.mem_cons.mp hq with hq | hq
              · subst hq
                by_cases hqr : q ∈ rest
                · exact ha q hqr
                · rw [hb q hqr, fsLookup_fsSet_self, hcv]
              · exact ha q hq
            · intro q hq
              have hqp : q ≠ p := fun hc2 => hq (hc2 ▸ List.mem_cons_self p rest)
              have hqr : q ∉ rest := fun hc2 => hq (List.mem_cons_of_mem p hc2)
              rw [hb q hqr, fsLookup_fsSet_ne fs p q v (fun hc2 => hqp hc2.symm)]

/-- C2 (corrected): as stated the claim fails, because the dirty set
records every path targeted by a mutating operation even when the
final cached state equals the initially read state, and such paths are
reported and rewritten.  Concretely, a `replace_entire_file` that
writes back identical content reports `["f.txt"]` although nothing
changed, where the claim demands the empty report. -/
theorem c2_counterexample :
    applyWorkspaceEditInstructions [("f.txt", "x")]
        [[("op", JVal.str "replace_entire_file"), ("path", JVal.str "f.txt"),
          ("content", JVal.str "x")]] none
      = ([("f.txt", "x")], .ok ["f.txt"])
    ∧ fsLookup [("f.txt", "x")] "f.txt" = some "x"
    ∧ ("f.txt" :: [] : List String) ≠ [] := by
  exact ⟨rfl, rfl, by simp⟩

/-- C2 (amended): a successful `apply_workspace_edits` returns the
sorted dirty set — exactly the paths targeted by at least one mutating
operation, regardless of whether their final cached state differs from
the initially read one; every reported path ends up on disk with its
final cached state, and unreported paths are untouched. -/
theorem c2_reported_paths (fs : Fs) (edits : List Edit)
    (defaultPath : Option String) (out : List String)
    (h : (applyWorkspaceEditInstructions fs edits defaultPath).2 = .ok out) :
    ∃ defaultRel cache dirty,
      normalizedDefault defaultPath = .ok defaultRel
      ∧ processEdits fs defaultRel edits 1 [] [] = .ok (cache, dirty)
      ∧ out = sortStrings dirty
      ∧ (∀ p, p ∈ out ↔ p ∈ dirty)
      ∧ out.Pairwise (fun a b => strLe a b = true)
      ∧ (∀ p, p ∈ out →
          fsLookup (applyWorkspaceEditInstructions fs edits defaultPath).1 p
            = (cacheGet cache p).getD none)
      ∧ (∀ p, p ∉ out →
          fsLookup (applyWorkspaceEditInstructions fs edits defaultPath).1 p
            = fsLookup fs p) := by
  cases hd : normalizedDefault defaultPath with
  | error e0 =>
    rw [show (applyWorkspaceEditInstructions fs edits defaultPath).2
        = .error e0 by simp [applyWorkspaceEditInstructions, hd]] at h
    exact Except.noConfusion h
  | ok defaultRel =>
    cases hp : processEdits fs defaultRel edits 1 [] [] with
    | error e1 =>
      rw [show (applyWorkspaceEditInstructions fs edits defaultPath).2
          = .error e1 by simp [applyWorkspaceEditInstructions, hd, hp]] at h
      exact Except.noConfusion h
    | ok cd =>
      obtain ⟨cache, dirty⟩ := cd
      cases hw : writePhase cache fs (sortStrings dirty) with
      | mk fs2 oe =>
        cases oe with
        | some e2 =>
          rw [show (applyWorkspaceEditInstructions fs edits defaultPath).2
              = .error e2 by simp [applyWorkspaceEditInstructions, hd, hp, hw]] at h
          exact Except.noConfusion h
        | none =>
          have hout : out = sortStrings dirty := by
            rw [show (applyWorkspaceEditInstructions fs edits defaultPath).2
                = .ok (sortStrings dirty) by
                  simp [applyWorkspaceEditInstructions, hd, hp, hw]] at h
            injection h with h1
            exact h1.symm
          have hfs : (applyWorkspaceEditInstructions fs edits defaultPath).1 = fs2 := by
            simp [applyWorkspaceEditInstructions, hd, hp, hw]
          obtain ⟨ha, hb⟩ := writePhase_ok_lookup cache (sortStrings dirty) fs fs2 hw
          refine ⟨defaultRel, cache, dirty, ?_, ?_, hout, ?_, ?_, ?_, ?_⟩
          · rfl
          · exact hp
          · intro p
            rw [hout]
            exact mem_sortStrings dirty p
          · rw [hout]
            exact sortStrings_pairwise dirty
          · intro p hpmem
            rw [hfs]
            exact ha p (hout ▸ hpmem)
          · intro p hpmem
            rw [hfs]
            exact hb p (hout ▸ hpmem)

/-- Witness for the amended C2: the create/move/delete lifecycle chain
reports both touched paths, sorted, although the final tree is empty
like the initial one. -/
theorem c2_witness :
    (applyWorkspaceEditInstructions []
        [[("op", JVal.str "create_file"), ("path", JVal.str "a.txt"),
          ("content", JVal.str "hello")],
         [("op", JVal.str "move_file"), ("path", JVal.str "a.txt"),
          ("new_path", JVal.str "nested/b.txt")],
         [("op", JVal.str "delete_file"), ("path", JVal.str "nested/b.txt")]]
        none).2
      = .ok ["a.txt", "nested/b.txt"]
    ∧ (["a.txt", "nested/b.txt"] : List String).Pairwise
        (fun a b => strLe a b = true) := by
  have h : (applyWorkspaceEditInstructions []
      [[("op", JVal.str "create_file"), ("path", JVal.str "a.txt"),
        ("content", JVal.str "hello")],
       [("op", JVal.str "move_file"), ("path", JVal.str "a.txt"),
        ("new_path", JVal.str "nested/b.txt")],
       [("op", JVal.str "delete_file"), ("path", JVal.str "nested/b.txt")]]
      none).2 = .ok ["a.txt", "nested/b.txt"] := rfl
  obtain ⟨dr, cache, dirty, -, -, hout, -, hpw, -, -⟩ :=
    c2_reported_paths []
      [[("op", JVal.str "create_file"), ("path", JVal.str "a.txt"),
        ("content", JVal.str "hello")],
       [("op", JVal.str "move_file"), ("path", JVal.str "a.txt"),
        ("new_path", JVal.str "nested/b.txt")],
       [("op", JVal.str "delete_file"), ("path", JVal.str "nested/b.txt")]]
      none ["a.txt", "nested/b.txt"] h
  exact ⟨h, hpw⟩

/-- The fields of a JSON object value, if it is one. -/
def jsonObjFields : JVal → Option (List (String × JVal))
  | .obj fields => some fields
  | _ => none

/-- The elements of a JSON array value, if it is one. -/
def jsonArrElems : JVal → Option (List JVal)
  | .arr es => some es
  | _ => none

/-- A well-formed element of the `edits` array: an object with a
non-empty string `op` field. -/
def goodEditElement : JVal → Bool
  | .obj fields =>
    match dictGet fields "op" with
    | some (.str op) => ¬ op.isEmpty
    | _ => false
  | _ => false

/-- The payload value `parse_edit_instructions` works on, when one was
decoded. -/
def decodedValue (text : String) : Option JVal :=
  match decodedPayload text with
  | .ok (v, _) => some v
  | .error _ => none

/-- One step of the element validation loop. -/
theorem validateEdits_cons_none_iff (e : JVal) (rest : List JVal) (idx : Nat) :
    validateEdits (e :: rest) idx = none ↔
      (goodEditElement e = true ∧ validateEdits rest (idx + 1) = none) := by
  cases e with
  | obj fields =>
    simp only [validateEdits, goodEditElement]
    cases hop : dictGet fields "op" with
    | none => simp
    | some v =>
      cases v with
      | str op => by_cases hemp : op.isEmpty = true <;> simp [hemp]
      | null => simp
      | bool b => simp
      | num lit => simp
      | arr es2 => simp
      | obj fs2 => simp
  | null => simp [validateEdits, goodEditElement]
  | bool b => simp [validateEdits, goodEditElement]
  | num lit => simp [validateEdits, goodEditElement]
  | str s2 => simp [validateEdits, goodEditElement]
  | arr es2 => simp [validateEdits, goodEditElement]

/-- The element validation loop accepts exactly the lists whose
elements are all well-formed. -/
theorem validateEdits_none_iff :
    ∀ (es : List JVal) (idx : Nat), validateEdits es idx = none ↔
      ∀ e ∈ es, goodEditElement e = true := by
  intro es
  induction es with
  | nil => intro idx; simp [validateEdits]
  | cons e rest ih =>
    intro idx
    rw [validateEdits_cons_none_iff, ih (idx + 1)]
    simp

/-- The payload phase fails exactly when the stripped text is not a
JSON document and no extracted balanced object is one either. -/
theorem decodedPayload_error_iff (text : String) :
    isErr (decodedPayload text) = true ↔
      (jsonLoads (pyStrip text) = none ∧
        ((extractFirstJsonObject (pyStrip text).toList).bind
          (fun b => jsonLoads b.asString)) = none) := by
  unfold decodedPayload
  simp only [String.toList]
  cases hl : jsonLoads (pyStrip text) with
  | some v => simp [isErr, hl]
  | none =>
    cases hx : extractFirstJsonObject (pyStrip text).data with
    | none => simp [isErr, hl, hx, Option.bind]
    | some blob =>
      cases hb : jsonLoads blob.asString with
      | some v => simp [isErr, hl, hx, hb, Option.bind]
      | none => simp [isErr, hl, hx, hb, Option.bind]

/-- C8 (confirmed): `parse_edit_instructions` fails with
`MalformedResponse` exactly when no balanced JSON object can be
decoded (direct parse fails and the extracted balanced `\x7b...\x7d`
blob, if any, does not parse), or the decoded top-level value is not an
object, or its `edits` field is missing / not an array / an empty
array, or some element of `edits` is not an object with a non-empty
string `op` field. -/
theorem c8_parse_failure_iff (text : String) :
    isErr (parseEditInstructions text) = true ↔
      ((jsonLoads (pyStrip text) = none ∧
        ((extractFirstJsonObject (pyStrip text).toList).bind
          (fun b => jsonLoads b.asString)) = none)
      ∨ (∃ v, decodedValue text = some v ∧ jsonObjFields v = none)
      ∨ (∃ v fields, decodedValue text = some v ∧ jsonObjFields v = some fields ∧
          ((dictGet fields "edits").bind jsonArrElems = none ∨
           (dictGet fields "edits").bind jsonArrElems = some []))
      ∨ (∃ v fields es, decodedValue text = some v ∧ jsonObjFields v = some fields ∧
          dictGet fields "edits" = some (.arr es) ∧ es ≠ [] ∧
          ∃ e2 ∈ es, goodEditElement e2 = false)) := by
  unfold parseEditInstructions
  cases hdp : decodedPayload text with
  | error e0 =>
    have hA : isErr (decodedPayload text) = true := by rw [hdp]; rfl
    rw [decodedPayload_error_iff] at hA
    exact iff_of_true rfl (Or.inl hA)
  | ok vb =>
    obtain ⟨v, sanitized⟩ := vb
    have hdv : decodedValue text = some v := by
      unfold decodedValue
      rw [hdp]
    have hnA : ¬ (jsonLoads (pyStrip text) = none ∧
        ((extractFirstJsonObject (pyStrip text).toList).bind
          (fun b => jsonLoads b.asString)) = none) := by
      intro hA
      have hE : isErr (decodedPayload text) = true := (decodedPayload_error_iff text).mpr hA
      rw [hdp] at hE
      exact Bool.noConfusion hE
    cases v with
    | obj fields =>
      have hno2 : ∀ w, decodedValue text = some w → jsonObjFields w ≠ none := by
        intro w hw
        rw [hdv] at hw
        injection hw with hw2
        rw [← hw2]
        simp [jsonObjFields]
      cases hed : dictGet fields "edits" with
      | none =>
        refine iff_of_true (by simp [hed, isErr]) ?_
        refine Or.inr (Or.inr (Or.inl ⟨JVal.obj fields, fields, hdv, rfl, Or.inl ?_⟩))
        rw [hed]
        rfl
      | some ev =>
        cases ev with
        | arr es =>
          by_cases hemp : es.isEmpty = true
          · have hesnil : es = [] := by simpa using hemp
            subst hesnil
            refine iff_of_true (by simp [hed, isErr]) ?_
            refine Or.inr (Or.inr (Or.inl ⟨JVal.obj fields, fields, hdv, rfl, Or.inr ?_⟩))
            rw [hed]
            rfl
          · have hesne : es ≠ [] := by simpa using hemp
            cases hval : validateEdits es 1 with
            | some err =>
              refine iff_of_true (by simp [hed, hemp, hval, isErr]) ?_
              have hbad : ¬ ∀ e2 ∈ es, goodEditElement e2 = true := by
                intro hall
                rw [← validateEdits_none_iff es 1] at hall
                rw [hval] at hall
                exact Option.noConfusion hall
              push_neg at hbad
              obtain ⟨e2, he2, hb2⟩ := hbad
              refine Or.inr (Or.inr (Or.inr
                ⟨JVal.obj fields, fields, es, hdv, rfl, hed, hesne, e2, he2, ?_⟩))
              simpa using hb2
            | none =>
              refine iff_of_false (by simp [hed, hemp, hval, isErr]) ?_
              intro hcontra
              rcases hcontra with hA | ⟨w, hw, hwo⟩ | ⟨w, flds, hw, hwo, hcc⟩ |
                ⟨w, flds, es2, hw, hwo, hed2, hne2, e2, he2, hb2⟩
              · exact hnA hA
              · exact hno2 w hw hwo
              · rw [hdv] at hw
                injection hw with hw2
                subst hw2
                simp only [jsonObjFields] at hwo
                injection hwo with hwo2
                subst hwo2
                rw [hed] at hcc
                simp only [Option.bind, jsonArrElems] at hcc
                rcases hcc with hcc | hcc
                · exact Option.noConfusion hcc
                · injection hcc with hcc2
                  exact hesne hcc2
              · rw [hdv] at hw
                injection hw with hw2
                subst hw2
                simp only [jsonObjFields] at hwo
                injection hwo with hwo2
                subst hwo2
                rw [hed] at hed2
                injection hed2 with hed3
                injection hed3 with hed4
                subst hed4
                have hgood := (validateEdits_none_iff es 1).mp hval e2 he2
                rw [hgood] at hb2
                exact Bool.noConfusion hb2
        | null =>
          refine iff_of_true (by simp [hed, isErr]) ?_
          refine Or.inr (Or.inr (Or.inl ⟨JVal.obj fields, fields, hdv, rfl, Or.inl ?_⟩))
          rw [hed]
          rfl
        | bool b =>
          refine iff_of_true (by simp [hed, isErr]) ?_
          refine Or.inr (Or.inr (Or.inl ⟨JVal.obj fields, fields, hdv, rfl, Or.inl ?_⟩))
          rw [hed]
          rfl
        | num lit =>
          refine iff_of_true (by simp [hed, isErr]) ?_
          refine Or.inr (Or.inr (Or.inl ⟨JVal.obj fields, fields, hdv, rfl, Or.inl ?_⟩))
          rw [hed]
          rfl
        | str s2 =>
          refine iff_of_true (by simp [hed, isErr]) ?_
          refine Or.inr (Or.inr (Or.inl ⟨JVal.obj fields, fields, hdv, rfl, Or.inl ?_⟩))
          rw [hed]
          rfl
        | obj fs2 =>
          refine iff_of_true (by simp [hed, isErr]) ?_
          refine Or.inr (Or.inr (Or.inl ⟨JVal.obj fields, fields, hdv, rfl, Or.inl ?_⟩))
          rw [hed]
          rfl
    | null => exact iff_of_true rfl (Or.inr (Or.inl ⟨JVal.null, hdv, rfl⟩))
    | bool b => exact iff_of_true rfl (Or.inr (Or.inl ⟨JVal.bool b, hdv, rfl⟩))
    | num lit => exact iff_of_true rfl (Or.inr (Or.inl ⟨JVal.num lit, hdv, rfl⟩))
    | str s2 => exact iff_of_true rfl (Or.inr (Or.inl ⟨JVal.str s2, hdv, rfl⟩))
    | arr es2 => exact iff_of_true rfl (Or.inr (Or.inl ⟨JVal.arr es2, hdv, rfl⟩))

/-- The scan loop accepts exactly when no line is offending and the
assembly flag is set or becomes set. -/
theorem validateLines_none_iff :
    ∀ (lines : List (List Char)) (k : Nat) (sawAsm : Bool),
      validateLines lines k sawAsm = none ↔
        ((∀ l ∈ lines, (classifyLine l).isOffending = false)
          ∧ (sawAsm = true ∨ ∃ l ∈ lines, (classifyLine l).countsAsAsm = true)) := by
  intro lines
  induction lines with
  | nil =>
    intro k sawAsm
    cases sawAsm <;> simp [validateLines]
  | cons raw rest ih =>
    intro k sawAsm
    by_cases hoff : (classifyLine raw).isOffending = true
    · simp only [validateLines, hoff, if_pos]
      constructor
      · intro hc
        exact Option.noConfusion hc
      · rintro ⟨hall, -⟩
        have := hall raw (List.mem_cons_self _ _)
        rw [hoff] at this
        exact Bool.noConfusion this
    · have hoff2 : (classifyLine raw).isOffending = false := by
        simpa using hoff
      simp only [validateLines, if_neg hoff]
      rw [ih (k + 1) (sawAsm || (classifyLine raw).countsAsAsm)]
      constructor
      · rintro ⟨hall, hflag⟩
        refine ⟨?_, ?_⟩
        · intro l hl
          rcases List.mem_cons.mp hl with hl | hl
          · rw [hl]
            exact hoff2
          · exact hall l hl
        · rcases hflag with hflag | ⟨l, hl, hcnt⟩
          · rcases Bool.or_eq_true_iff.mp hflag with hs | hs
            · exact Or.inl hs
            · exact Or.inr ⟨raw, List.mem_cons_self _ _, hs⟩
          · exact Or.inr ⟨l, List.mem_cons_of_mem _ hl, hcnt⟩
      · rintro ⟨hall, hflag⟩
        refine ⟨?_, ?_⟩
        · intro l hl
          exact hall l (List.mem_cons_of_mem _ hl)
        · rcases hflag with hs | ⟨l, hl, hcnt⟩
          · exact Or.inl (by rw [hs]; rfl)
          · rcases List.mem_cons.mp hl with hl | hl
            · left
              rw [hl] at hcnt
              simp [hcnt]
            · exact Or.inr ⟨l, hl, hcnt⟩

/-- A reported offending line is the first one: its class is offending,
its reported text matches, and every earlier line is not offending. -/
theorem validateLines_badLine :
    ∀ (lines : List (List Char)) (k : Nat) (sawAsm : Bool) (n : Nat)
      (cls : LineClass) (txt : String),
      validateLines lines k sawAsm = some (.badLine n cls txt) →
        ∃ j l, n = k + j ∧ lines.get? j = some l ∧ classifyLine l = cls
          ∧ cls.isOffending = true ∧ txt = offendingText l
          ∧ ∀ i l2, i < j → lines.get? i = some l2 →
              (classifyLine l2).isOffending = false := by
  intro lines
  induction lines with
  | nil =>
    intro k sawAsm n cls txt h
    cases sawAsm with
    | true => exact Option.noConfusion h
    | false =>
      injection h with h2
      exact ValidationErr.noConfusion h2
  | cons raw rest ih =>
    intro k sawAsm n cls txt h
    by_cases hoff : (classifyLine raw).isOffending = true
    · rw [show validateLines (raw :: rest) k sawAsm
          = some (.badLine k (classifyLine raw) (offendingText raw)) by
            simp [validateLines, hoff]] at h
      injection h with h2
      injection h2 with hn hcls htxt
      refine ⟨0, raw, by omega, rfl, hcls, ?_, htxt.symm, ?_⟩
      · rw [← hcls]
        exact hoff
      · intro i l2 hi _
        omega
    · rw [show validateLines (raw :: rest) k sawAsm
          = validateLines rest (k + 1) (sawAsm || (classifyLine raw).countsAsAsm) by
            simp [validateLines, hoff]] at h
      obtain ⟨j, l, hn, hget, hcls, hoffl, htxt, hfirst⟩ :=
        ih (k + 1) (sawAsm || (classifyLine raw).countsAsAsm) n cls txt h
      refine ⟨j + 1, l, by omega, by simpa using hget, hcls, hoffl, htxt, ?_⟩
      intro i l2 hi hgeti
      cases i with
      | zero =>
        simp only [List.get?] at hgeti
        injection hgeti with hg
        rw [← hg]
        simpa using hoff
      | succ i2 =>
        simp only [List.get?] at hgeti
        exact hfirst i2 l2 (by omega) hgeti

/-- C7 (corrected): as stated the claim fails, because comment lines
are skipped without setting the assembly flag, so an input whose every
non-blank line is a comment — source-like under the classifier — is
rejected with the no-assembly report instead of returning `None`. -/
theorem c7_counterexample :
    validateArmAsmSourceText "@ only a comment" = some ValidationErr.noAsm
    ∧ classifyLine "@ only a comment".toList = LineClass.comment
    ∧ LineClass.comment.isOffending = false := by
  exact ⟨rfl, rfl, rfl⟩

/-- C7 (amended): the gate returns `None` exactly when no line is
offending and at least one line is a non-comment assembly-like line
(directive, label, preprocessor line or instruction); otherwise it
reports either the first offending line — with its 1-based number and
its reported text — or the absence of assembly-like lines; and a
non-blank line carrying a forbidden marker (a reject prefix such as a
code fence, or an inline backtick) is always classified offending. -/
theorem c7_validation_gate (s : String) :
    (validateArmAsmSourceText s = none ↔
      ((∀ l ∈ pySplitlines s.toList, (classifyLine l).isOffending = false)
        ∧ ∃ l ∈ pySplitlines s.toList, (classifyLine l).countsAsAsm = true))
  ∧ (∀ n cls txt, validateArmAsmSourceText s = some (.badLine n cls txt) →
      ∃ j l, n = 1 + j ∧ (pySplitlines s.toList).get? j = some l
        ∧ classifyLine l = cls ∧ cls.isOffending = true ∧ txt = offendingText l
        ∧ ∀ i l2, i < j → (pySplitlines s.toList).get? i = some l2 →
            (classifyLine l2).isOffending = false)
  ∧ (∀ l : List Char, pyStripList (rstripCR l) ≠ [] →
      (rejectPrefixHit (pyStripList (rstripCR l)) = true
        ∨ (pyStripList (rstripCR l)).contains (Char.ofNat 0x60) = true) →
      (classifyLine l).isOffending = true) := by
  refine ⟨?_, ?_, ?_⟩
  · unfold validateArmAsmSourceText
    rw [validateLines_none_iff (pySplitlines s.toList) 1 false]
    simp
  · intro n cls txt h
    exact validateLines_badLine (pySplitlines s.toList) 1 false n cls txt h
  · intro l hne hmark
    unfold classifyLine
    rw [if_neg (by simpa using hne)]
    by_cases hrej : rejectPrefixHit (pyStripList (rstripCR l)) = true
    · rw [if_pos hrej]
      rfl
    · rw [if_neg hrej]
      have hbt : (pyStripList (rstripCR l)).contains (Char.ofNat 0x60) = true := by
        rcases hmark with hmark | hmark
        · exact absurd hmark hrej
        · exact hmark
      rw [if_pos hbt]
      rfl

/-- Witness for the amended C7 at concrete inputs: a valid assembly
source passes, and a prose opener is reported as line 1. -/
theorem c7_witness :
    validateArmAsmSourceText ".text\n_start:\n  b .\n" = none
    ∧ (classifyLine "```asm".toList).isOffending = true := by
  constructor
  · exact (c7_validation_gate ".text\n_start:\n  b .\n").1.mpr (by decide)
  · exact (c7_validation_gate "").2.2 "```asm".toList (by decide) (Or.inl (by decide))

end AgentLoop
